import Mathlib

/-
  Verification of AliFMDSharingFilter (signal-sharing correction for the
  FMD silicon strip detector, file AliFMDSharingFilter.cxx).

  The merging pass of AliFMDSharingFilter::Filter walks the strips of one
  sector, carrying three state variables (`used`, `eTotal`, `twoLow`), and
  decides whether 1, 2 or 3 consecutive strips form one cluster.  We embed
  that loop shallowly:

  * signals are exact rationals; the ESD marker kInvalidMult is `none`
    (a strip signal is `Option ℚ`);
  * `GetLowCut(d,r,eta)` / `GetHighCut(d,r,eta,false)` are external
    calibration lookups (AliFMDMultCuts, not part of this file); since
    within a fixed sector they are functions of the strip's eta, and eta
    is a function of the strip number, they enter the model as per-strip
    functions `lowCut, highCut : Nat → ℚ`;
  * `TMath::Cos(theta(eta))` at the eta of strip `t` enters as the
    per-strip parameter `cosTheta : Nat → ℚ`, and the correction factor
    `cosNew/cosOld` of the fRecalculateEta branch as `corr : Nat → ℚ`;
  * histogram fills, debug printing and counters are diagnostics with no
    effect on the produced AliESDFMD object and are not modelled.
-/

namespace AliFMDSharingFilter

/-- Configuration flags of the filter that the merging pass of `Filter`
reads (fThreeStripSharing, fCorrectAngles, fRecalculateEta,
fInvalidIsEmpty). -/
structure Config where
  threeStripSharing : Bool
  correctAngles : Bool
  recalculateEta : Bool
  invalidIsEmpty : Bool
deriving DecidableEq

/-- Per-sector environment of the strip loop: number of strips of the
ring (`nstr`), the extra-dead flags (IsDead) per strip, and the
eta-dependent quantities as functions of the strip number: the low and
high cuts, the fRecalculateEta factor `cosNew/cosOld`, and the cosine of
the incidence angle used by AngleCorrect. -/
structure SectorEnv where
  nstr : Nat
  dead : Nat → Bool
  lowCut : Nat → ℚ
  highCut : Nat → ℚ
  corr : Nat → ℚ
  cosTheta : Nat → ℚ

/-- The three per-sector state variables of the strip loop
(lines 405-415): `used` flags that the current strip was consumed by the
previous iteration, `eTotal` is the pending partial sum (-1 when absent),
`twoLow` flags two consecutive sub-high-cut strips. -/
structure MergeState where
  used : Bool
  eTotal : ℚ
  twoLow : Bool
deriving DecidableEq

/-- Initial (and reset) state of the strip loop: used = false,
eTotal = -1, twoLow = false. -/
def initState : MergeState := ⟨false, -1, false⟩

/-- Pointwise update of an output column. -/
def upd (f : Nat → Option ℚ) (i : Nat) (v : Option ℚ) : Nat → Option ℚ :=
  fun j => if j = i then v else f j

/-- A strip signal with the invalid marker read as 0 (the effect of
lines 424-425 on the next and next-to-next strips). -/
def sigD (sig : Nat → Option ℚ) (t : Nat) : ℚ := (sig t).getD 0

/-- multNext before the eta-recalculation factor: the next strip's signal
when there is a next strip, with kInvalidMult replaced by 0
(lines 422 and 424). -/
def multNextRaw (env : SectorEnv) (sig : Nat → Option ℚ) (t : Nat) : ℚ :=
  if t < env.nstr - 1 then sigD sig (t + 1) else 0

/-- multNextNext before the eta-recalculation factor: the signal two
strips ahead when it exists, with kInvalidMult replaced by 0, and forced
to 0 when three-strip sharing is disabled (lines 423, 425, 426). -/
def multNNAdj (cfg : Config) (env : SectorEnv) (sig : Nat → Option ℚ) (t : Nat) : ℚ :=
  if cfg.threeStripSharing = true then
    (if t < env.nstr - 2 then sigD sig (t + 2) else 0)
  else 0

/-- Whether the fRecalculateEta correction factor is applied at strip t:
fRecalculateEta is set and the current signal is positive and valid
(line 438). -/
def doCorr (cfg : Config) (sig : Nat → Option ℚ) (t : Nat) : Bool :=
  cfg.recalculateEta &&
    (match sig t with
     | some q => decide (0 < q)
     | none => false)

/-- The current strip's signal after the whole preprocessing pipeline of
lines 421-464: the eta-recalculation factor (lines 438-445), the
fInvalidIsEmpty replacement (lines 454-455), and the dead/invalid
marking (lines 460-464); `none` is kInvalidMult. -/
def effMult (cfg : Config) (env : SectorEnv) (sig : Nat → Option ℚ) (t : Nat) : Option ℚ :=
  let m1 := if doCorr cfg sig t = true then (sig t).map (fun q => q * env.corr t) else sig t
  let m2 := if m1 = none ∧ cfg.invalidIsEmpty = true then some 0 else m1
  if m2 = none ∨ env.dead t = true then none else m2

/-- multNext as used by the decision logic: the raw next-strip signal,
scaled by the eta-recalculation factor when that applies (line 443). -/
def effMultNext (cfg : Config) (env : SectorEnv) (sig : Nat → Option ℚ) (t : Nat) : ℚ :=
  if doCorr cfg sig t = true then multNextRaw env sig t * env.corr t else multNextRaw env sig t

/-- multNextNext as used by the decision logic (line 444). -/
def effMultNN (cfg : Config) (env : SectorEnv) (sig : Nat → Option ℚ) (t : Nat) : ℚ :=
  if doCorr cfg sig t = true then multNNAdj cfg env sig t * env.corr t else multNNAdj cfg env sig t

/-- The final angle treatment of the emitted merged energy
(lines 575-576): AngleCorrect (multiplication by the cosine of the
incidence angle) is applied when fCorrectAngles is NOT set. -/
def mergeCorr (cfg : Config) (env : SectorEnv) (t : Nat) (e : ℚ) : ℚ :=
  if cfg.correctAngles = true then e else e * env.cosTheta t

/-- One iteration of the strip loop of `Filter` (lines 416-588) at strip
`t`: writes 0 to the output at `t` (line 420), preprocesses the signals,
handles dead/invalid and zero strips with the pending-sum flush
(lines 460-477), and otherwise runs the merging decision tree
(lines 503-587), returning the new state and the updated output column. -/
def stripStep (cfg : Config) (env : SectorEnv) (sig : Nat → Option ℚ)
    (t : Nat) (st : MergeState) (out : Nat → Option ℚ) :
    MergeState × (Nat → Option ℚ) :=
  let out0 := upd out t (some 0)
  match effMult cfg env sig t with
  | none =>
      -- dead or invalid: output gets kInvalidMult, a pending sum is
      -- flushed at the previous strip, the state is reset (continue)
      let out1 := upd out0 t none
      let out2 := if 0 < st.eTotal ∧ 0 < t then upd out1 (t - 1) (some st.eTotal) else out1
      (initState, out2)
  | some m =>
      if m = 0 then
        -- no signal: flush a pending sum at the previous strip and reset
        let out2 := if 0 < st.eTotal ∧ 0 < t then upd out0 (t - 1) (some st.eTotal) else out0
        (initState, out2)
      else
        let mN := effMultNext cfg env sig t
        let mNN := effMultNN cfg env sig t
        let lo := env.lowCut t
        let hi := env.highCut t
        if 0 < st.eTotal then
          -- a pending 1- or 2-strip sum exists (lines 503-526)
          if cfg.threeStripSharing = true ∧ lo < mN ∧ (mN < hi ∨ st.twoLow = true) then
            (⟨true, -1, false⟩,
             upd out0 t (some (mergeCorr cfg env t (st.eTotal + mN))))
          else
            (⟨false, -1, st.twoLow⟩,
             upd out0 t (some (mergeCorr cfg env t st.eTotal)))
        else
          if st.used = true then
            -- consumed by the previous iteration: clear the flag, continue
            ({ st with used := false }, out0)
          else
            if lo < m ∧ lo < mN ∧ (m < hi ∨ mN < hi) then
              let twoLow' := if m < hi ∧ mN < hi then true else st.twoLow
              if mN < m ∧ mNN < lo then
                -- immediate two-strip cluster (lines 547-552)
                (⟨true, st.eTotal, twoLow'⟩,
                 upd out0 t (some (mergeCorr cfg env t (m + mN))))
              else
                -- provisional merge: record the pending sum (lines 554-557)
                (⟨false, m + mN, twoLow'⟩,
                 upd out0 t (some (mergeCorr cfg env t 0)))
            else
              -- single hit (or sub-low-cut strip emitting 0)
              (⟨false, st.eTotal, st.twoLow⟩,
               upd out0 t (some (mergeCorr cfg env t (if lo < m then m else 0))))

/-- Run the strip loop over `n` strips starting at strip `t0`. -/
def runAux (cfg : Config) (env : SectorEnv) (sig : Nat → Option ℚ)
    (st : MergeState) (out : Nat → Option ℚ) (t0 : Nat) : Nat → MergeState × (Nat → Option ℚ)
  | 0 => (st, out)
  | n + 1 =>
      let p := stripStep cfg env sig t0 st out
      runAux cfg env sig p.1 p.2 (t0 + 1) n

/-- The whole sector pass of `Filter`: the strip loop over strips
0 .. nstr-1 starting from the reset state, on an output column initially
holding the values left by `output.Clear()`. -/
def sectorRun (cfg : Config) (env : SectorEnv) (sig : Nat → Option ℚ)
    (out0 : Nat → Option ℚ) : Nat → Option ℚ :=
  (runAux cfg env sig initState out0 0 env.nstr).2

/-- The value held by the local variable `etot` when line 567 assigns
`mergedEnergy = etot`, i.e. the merged amplitude before the angle
treatment, as a function of the state and the strip's signals.  The
branch structure mirrors `stripStep` (lines 482-567); on the two
`continue` paths (dead/invalid/zero strip, or a strip consumed by the
previous iteration) the value is unused and reported as 0. -/
def stripEtot (cfg : Config) (env : SectorEnv) (sig : Nat → Option ℚ)
    (st : MergeState) (t : Nat) : ℚ :=
  match effMult cfg env sig t with
  | none => 0
  | some m =>
      if m = 0 then 0
      else
        let mN := effMultNext cfg env sig t
        let mNN := effMultNN cfg env sig t
        let lo := env.lowCut t
        let hi := env.highCut t
        if 0 < st.eTotal then
          if cfg.threeStripSharing = true ∧ lo < mN ∧ (mN < hi ∨ st.twoLow = true)
          then st.eTotal + mN else st.eTotal
        else if st.used = true then 0
        else if lo < m ∧ lo < mN ∧ (m < hi ∨ mN < hi) then
          (if mN < m ∧ mNN < lo then m + mN else 0)
        else (if lo < m then m else 0)

/-- The eta-recalculation factor actually applied at iteration i: the
`cosNew/cosOld` factor when fRecalculateEta is set and the strip's
signal is positive and valid, and 1 otherwise (lines 438-445). -/
def corrAt (cfg : Config) (env : SectorEnv) (sig : Nat → Option ℚ) (i : Nat) : ℚ :=
  if doCorr cfg sig i = true then env.corr i else 1

/-- The merged amplitude of a cluster of `len` consecutive strips
starting at strip `a`: each strip's signal (invalid read as 0) scaled by
the recalculation factor of the iteration that read it - the first and
second strip are read at iteration a (as mult and multNext), a third
strip at iteration a+1 (as its multNext).  With fRecalculateEta off all
factors are 1 and this is the plain sum of the signals. -/
def clusterSum (cfg : Config) (env : SectorEnv) (sig : Nat → Option ℚ)
    (a len : Nat) : ℚ :=
  match len with
  | 1 => corrAt cfg env sig a * sigD sig a
  | 2 => corrAt cfg env sig a * (sigD sig a + sigD sig (a + 1))
  | 3 => corrAt cfg env sig a * (sigD sig a + sigD sig (a + 1)) +
      corrAt cfg env sig (a + 1) * sigD sig (a + 2)
  | _ => 0

/-- AddDead (lines 229-265): validate the address, and on a well-formed
address set the bit `AliFMDStripIndex::Pack(d,r,s,t)` in fXtraDead.  The
packing routine lives in AliFMDStripIndex (not part of this file), so it
is a parameter `pack`; the returned flag records whether a Warning was
issued (in which case the routine returned early). -/
def AddDead (pack : Nat → Char → Nat → Nat → Nat) (bits : Nat → Bool)
    (d : Nat) (r : Char) (s t : Nat) : Bool × (Nat → Bool) :=
  if d < 1 ∨ 3 < d then (true, bits)
  else if d = 1 ∧ ¬(r = 'I' ∨ r = 'i') then (true, bits)
  else if ((r = 'I' ∨ r = 'i') ∧ 20 ≤ s) ∨ (¬(r = 'I' ∨ r = 'i') ∧ 40 ≤ s) then (true, bits)
  else if ((r = 'I' ∨ r = 'i') ∧ 512 ≤ t) ∨ (¬(r = 'I' ∨ r = 'i') ∧ 256 ≤ t) then (true, bits)
  else (false, fun i => if i = pack d r s t then true else bits i)

/-- IsDead (lines 288-304): test the bit `Pack(d,r,s,t)` of fXtraDead. -/
def IsDead (pack : Nat → Char → Nat → Nat → Nat) (bits : Nat → Bool)
    (d : Nat) (r : Char) (s t : Nat) : Bool :=
  bits (pack d r s t)

/-- A malformed address in the sense of the claim: detector outside 1..3,
an outer ring on detector 1, a sector number out of range for the ring,
or a strip number out of range for the ring. -/
def malformedAddress (d : Nat) (r : Char) (s t : Nat) : Prop :=
  d < 1 ∨ 3 < d ∨ (d = 1 ∧ ¬(r = 'I' ∨ r = 'i')) ∨
    ((r = 'I' ∨ r = 'i') ∧ 20 ≤ s) ∨ (¬(r = 'I' ∨ r = 'i') ∧ 40 ≤ s) ∨
    ((r = 'I' ∨ r = 'i') ∧ 512 ≤ t) ∨ (¬(r = 'I' ∨ r = 'i') ∧ 256 ≤ t)

instance (d : Nat) (r : Char) (s t : Nat) : Decidable (malformedAddress d r s t) := by
  unfold malformedAddress; infer_instance

/-- Pointwise update of an eta column. -/
def updQ (f : Nat → ℚ) (i : Nat) (v : ℚ) : Nat → ℚ :=
  fun j => if j = i then v else f j

/-- The eta writes of the strip loop (line 431): for each strip of the
sector, `output.SetEta(d,r,s,t,eta)` is executed when and only when
`s == 0`, with the eta read from the input object.  This runs before any
`continue`, so it happens for every strip. -/
def etaRunAux (s : Nat) (etaIn : Nat → ℚ) (e : Nat → ℚ) (t0 : Nat) : Nat → (Nat → ℚ)
  | 0 => e
  | n + 1 => etaRunAux s etaIn (if s = 0 then updQ e t0 (etaIn t0) else e) (t0 + 1) n

/-- The whole `Filter` pass (lines 370-598): every (detector, ring,
sector) gets an independent sector pass (the state variables are declared
inside the sector loop), the eta writes are performed per sector, and the
function ends with `return kTRUE` - the boolean component.  The
calibration environment, the input signals, the input etas, and the
values `output.Clear()` leaves in the output object are parameters. -/
def Filter (cfg : Config) (env : Nat → Char → Nat → SectorEnv)
    (sigs : Nat → Char → Nat → Nat → Option ℚ)
    (etaIn : Nat → Char → Nat → Nat → ℚ)
    (clearMult : Nat → Char → Nat → Nat → Option ℚ)
    (clearEta : Nat → Char → Nat → Nat → ℚ) :
    Bool × (Nat → Char → Nat → Nat → Option ℚ) × (Nat → Char → Nat → Nat → ℚ) :=
  (true,
   fun d r s => sectorRun cfg (env d r s) (sigs d r s) (clearMult d r s),
   fun d r s => etaRunAux s (etaIn d r s) (clearEta d r s) 0 (env d r s).nstr)

/-- theta(eta) as computed by AngleCorrect/DeAngleCorrect
(lines 679-680, 697-698): 2*atan(exp(-eta)), shifted by -pi for
negative eta. -/
noncomputable def thetaOf (eta : ℝ) : ℝ :=
  if eta < 0 then 2 * Real.arctan (Real.exp (-eta)) - Real.pi
  else 2 * Real.arctan (Real.exp (-eta))

/-- AngleCorrect (lines 666-682): multiply by the cosine of the
incidence angle. -/
noncomputable def AngleCorrect (mult eta : ℝ) : ℝ :=
  mult * Real.cos (thetaOf eta)

/-- DeAngleCorrect (lines 684-700): divide by the cosine of the
incidence angle. -/
noncomputable def DeAngleCorrect (mult eta : ℝ) : ℝ :=
  mult / Real.cos (thetaOf eta)

/- Concrete instances used by the counterexamples and witnesses. -/

/-- Three-strip sharing enabled, angle-corrected input
(fCorrectAngles set), no eta recalculation. -/
def cfgTT : Config := ⟨true, true, false, false⟩

/-- Same, but with fCorrectAngles disabled. -/
def cfgNoCA : Config := ⟨true, false, false, false⟩

/-- A sector of `n` strips, no extra dead strips, low cut 1, high cut 10,
trivial angle factors. -/
def stdEnv (n : Nat) : SectorEnv :=
  ⟨n, fun _ => false, fun _ => 1, fun _ => 10, fun _ => 1, fun _ => 1⟩

/-- Three strips with strip 1 marked dead via AddDead. -/
def deadEnv1 : SectorEnv :=
  ⟨3, fun t => t == 1, fun _ => 1, fun _ => 10, fun _ => 1, fun _ => 1⟩

/-- One strip, cosine of the incidence angle 1/2. -/
def halfCosEnv : SectorEnv :=
  ⟨1, fun _ => false, fun _ => 1, fun _ => 10, fun _ => 1, fun _ => 1 / 2⟩

/-- A signal column given by a list (strips past the end invalid). -/
def listSig (l : List (Option ℚ)) : Nat → Option ℚ := fun t => l.getD t none

/-- Seven in-band strips. -/
def sigRun7 : Nat → Option ℚ :=
  listSig [some 2, some 2, some 2, some 2, some 2, some 2, some 2]

/-- The same, except strip 0 is empty. -/
def sigRun7b : Nat → Option ℚ :=
  listSig [some 0, some 2, some 2, some 2, some 2, some 2, some 2]

/-- Two in-band strips then an empty one. -/
def sigDeadNbr : Nat → Option ℚ := listSig [some 2, some 2, some 0]

/-- Strip 1 carries a positive signal below the low cut. -/
def sigBelowLow : Nat → Option ℚ :=
  listSig [some 2, some (1 / 2), some 2, some 2]

/-- A single in-band strip. -/
def sigSingle2 : Nat → Option ℚ := listSig [some 2]

/-- A descending pair followed by an empty strip. -/
def sigImm : Nat → Option ℚ := listSig [some 3, some 2, some 0]

/-- Five strips, the last one empty. -/
def sigC6a : Nat → Option ℚ :=
  listSig [some 2, some 2, some 2, some 2, some 0]

/-- Five strips, the last one in band: differs from sigC6a only at
strip 4. -/
def sigC6b : Nat → Option ℚ :=
  listSig [some 2, some 2, some 2, some 2, some 7]

/-- Every sector of every ring has the 5-strip standard environment. -/
def envAll5 : Nat → Char → Nat → SectorEnv := fun _ _ _ => stdEnv 5

/-- Whole-detector signal assignments built from one sector column. -/
def sigsA : Nat → Char → Nat → Nat → Option ℚ := fun _ _ _ => sigC6a

/-- Same, built from sigC6b. -/
def sigsB : Nat → Char → Nat → Nat → Option ℚ := fun _ _ _ => sigC6b

/-- Input etas: strip number plus seven. -/
def etaInN : Nat → Char → Nat → Nat → ℚ := fun _ _ _ t => (t : ℚ) + 7

/-- Output object cleared to all-invalid multiplicities. -/
def clearMult0 : Nat → Char → Nat → Nat → Option ℚ := fun _ _ _ _ => none

/-- An alternative clear state with non-trivial multiplicities. -/
def clearMult1 : Nat → Char → Nat → Nat → Option ℚ := fun _ _ _ _ => some 3

/-- Output object cleared to all-zero etas. -/
def clearEta0 : Nat → Char → Nat → Nat → ℚ := fun _ _ _ _ => 0

/-- A concrete strip-index packing for the witnesses (the real
AliFMDStripIndex::Pack is outside this file; the C8 theorem holds for
every packing). -/
def pack0 (d : Nat) (r : Char) (s t : Nat) : Nat :=
  ((d * 2 + (if r = 'O' then 1 else 0)) * 40 + s) * 512 + t

/-- The empty dead-strip bit set. -/
def bits0 : Nat → Bool := fun _ => false

/- ------------------------------------------------------------------ -/
/- Helper lemmas                                                       -/
/- ------------------------------------------------------------------ -/

theorem upd_same (f : Nat → Option ℚ) (i : Nat) (v : Option ℚ) : upd f i v i = v := by
  simp [upd]

theorem upd_ne (f : Nat → Option ℚ) (i : Nat) (v : Option ℚ) {j : Nat} (h : j ≠ i) :
    upd f i v j = f j := by
  simp [upd, h]

theorem mergeCorr_zero (cfg : Config) (env : SectorEnv) (t : Nat) :
    mergeCorr cfg env t 0 = 0 := by
  simp [mergeCorr]

/- ------------------------------------------------------------------ -/
/- Claim C1                                                            -/
/- ------------------------------------------------------------------ -/

/-- Claim C1: in `Filter`, on a strip whose (preprocessed) signal is
valid and non-zero, when a pending sum exists (eTotal > 0) a third strip
is added to the cluster if and only if three-strip merging is enabled,
the next strip's signal is above the low cut, and that signal is below
the high cut or the twoLow flag is set; otherwise the pending sum is
finalized as a two-strip cluster.  In both cases the (angle-treated) sum
is written to the output at the current strip, and the pending sum is
reset to -1. -/
theorem c1_pending_third_strip (cfg : Config) (env : SectorEnv)
    (sig : Nat → Option ℚ) (t : Nat) (st : MergeState) (out : Nat → Option ℚ)
    (m : ℚ) (hm : effMult cfg env sig t = some m) (hm0 : m ≠ 0)
    (hp : 0 < st.eTotal) :
    ((stripStep cfg env sig t st out).1.used = true ↔
        (cfg.threeStripSharing = true ∧ env.lowCut t < effMultNext cfg env sig t ∧
          (effMultNext cfg env sig t < env.highCut t ∨ st.twoLow = true))) ∧
      (stripStep cfg env sig t st out).1.eTotal = -1 ∧
      (stripStep cfg env sig t st out).2 t =
        some (mergeCorr cfg env t
          (if cfg.threeStripSharing = true ∧ env.lowCut t < effMultNext cfg env sig t ∧
              (effMultNext cfg env sig t < env.highCut t ∨ st.twoLow = true)
           then st.eTotal + effMultNext cfg env sig t else st.eTotal)) := by
  by_cases hC : cfg.threeStripSharing = true ∧ env.lowCut t < effMultNext cfg env sig t ∧
      (effMultNext cfg env sig t < env.highCut t ∨ st.twoLow = true)
  · simp [stripStep, hm, hm0, hp, hC, upd]
  · simp [stripStep, hm, hm0, hp, hC, upd]

/-- Witness for C1 at a concrete input: strips [2,2,2], cuts (1,10),
pending sum 4 at strip 1, three-strip sharing on. -/
theorem c1_witness :
    (effMult cfgTT (stdEnv 3) sigRun7 1 = some 2 ∧ (2 : ℚ) ≠ 0 ∧
        (0 : ℚ) < (⟨false, 4, false⟩ : MergeState).eTotal) ∧
      (((stripStep cfgTT (stdEnv 3) sigRun7 1 ⟨false, 4, false⟩ (fun _ => none)).1.used = true ↔
          (cfgTT.threeStripSharing = true ∧
            (stdEnv 3).lowCut 1 < effMultNext cfgTT (stdEnv 3) sigRun7 1 ∧
            (effMultNext cfgTT (stdEnv 3) sigRun7 1 < (stdEnv 3).highCut 1 ∨
              (⟨false, 4, false⟩ : MergeState).twoLow = true))) ∧
        (stripStep cfgTT (stdEnv 3) sigRun7 1 ⟨false, 4, false⟩ (fun _ => none)).1.eTotal = -1 ∧
        (stripStep cfgTT (stdEnv 3) sigRun7 1 ⟨false, 4, false⟩ (fun _ => none)).2 1 =
          some (mergeCorr cfgTT (stdEnv 3) 1
            (if cfgTT.threeStripSharing = true ∧
                (stdEnv 3).lowCut 1 < effMultNext cfgTT (stdEnv 3) sigRun7 1 ∧
                (effMultNext cfgTT (stdEnv 3) sigRun7 1 < (stdEnv 3).highCut 1 ∨
                  (⟨false, 4, false⟩ : MergeState).twoLow = true)
             then (⟨false, 4, false⟩ : MergeState).eTotal + effMultNext cfgTT (stdEnv 3) sigRun7 1
             else (⟨false, 4, false⟩ : MergeState).eTotal))) :=
  ⟨⟨by norm_num [effMult, doCorr, Option.some_ne_none, sigD, listSig, cfgTT, stdEnv, sigRun7, listSig], by norm_num, by norm_num⟩,
    c1_pending_third_strip cfgTT (stdEnv 3) sigRun7 1 ⟨false, 4, false⟩ (fun _ => none) 2
      (by norm_num [effMult, doCorr, Option.some_ne_none, sigD, listSig, cfgTT, stdEnv, sigRun7, listSig]) (by norm_num)
      (by norm_num)⟩

/- ------------------------------------------------------------------ -/
/- Claim C2                                                            -/
/- ------------------------------------------------------------------ -/

/-- Claim C2: in `Filter`, on a strip with no pending sum and not marked
used, a two-strip merge is started exactly when the current signal is
above the low cut, the next signal is above the low cut, and at least
one of the two is below the high cut.  In that case, if the current
signal exceeds the next and the strip after next is below the low cut,
the double cluster mult+multNext is emitted at the current strip with
the next strip marked used; otherwise the pending sum
eTotal = mult+multNext is recorded and the output at the current strip
is 0.  Without a merge, the strip is emitted alone (or as 0 when below
the low cut). -/
theorem c2_merge_start (cfg : Config) (env : SectorEnv)
    (sig : Nat → Option ℚ) (t : Nat) (st : MergeState) (out : Nat → Option ℚ)
    (m : ℚ) (hm : effMult cfg env sig t = some m) (hm0 : m ≠ 0)
    (hp : ¬ 0 < st.eTotal) (hu : st.used = false) :
    ((env.lowCut t < m ∧ env.lowCut t < effMultNext cfg env sig t ∧
        (m < env.highCut t ∨ effMultNext cfg env sig t < env.highCut t)) →
      ((effMultNext cfg env sig t < m ∧ effMultNN cfg env sig t < env.lowCut t →
          (stripStep cfg env sig t st out).2 t =
              some (mergeCorr cfg env t (m + effMultNext cfg env sig t)) ∧
            (stripStep cfg env sig t st out).1.used = true ∧
            (stripStep cfg env sig t st out).1.eTotal = st.eTotal) ∧
        (¬ (effMultNext cfg env sig t < m ∧ effMultNN cfg env sig t < env.lowCut t) →
          (stripStep cfg env sig t st out).2 t = some 0 ∧
            (stripStep cfg env sig t st out).1.used = false ∧
            (stripStep cfg env sig t st out).1.eTotal = m + effMultNext cfg env sig t))) ∧
      (¬ (env.lowCut t < m ∧ env.lowCut t < effMultNext cfg env sig t ∧
            (m < env.highCut t ∨ effMultNext cfg env sig t < env.highCut t)) →
        (stripStep cfg env sig t st out).1.eTotal = st.eTotal ∧
          (stripStep cfg env sig t st out).1.used = false ∧
          (stripStep cfg env sig t st out).2 t =
            some (mergeCorr cfg env t (if env.lowCut t < m then m else 0))) := by
  constructor
  · intro hC
    constructor
    · intro hD
      simp [stripStep, hm, hm0, hp, hu, hC, hD, upd]
    · intro hD
      simp [stripStep, hm, hm0, hp, hu, hC, hD, upd, mergeCorr_zero]
  · intro hC
    simp [stripStep, hm, hm0, hp, hu, hC, upd]

/-- Witness for C2 at a concrete input: strips [3,2,0] at strip 0 with
cuts (1,10): an immediate two-strip cluster of amplitude 5. -/
theorem c2_witness :
    (effMult cfgTT (stdEnv 3) sigImm 0 = some 3 ∧ (3 : ℚ) ≠ 0 ∧
        ¬ (0 : ℚ) < initState.eTotal ∧ initState.used = false) ∧
      (((stdEnv 3).lowCut 0 < 3 ∧ (stdEnv 3).lowCut 0 < effMultNext cfgTT (stdEnv 3) sigImm 0 ∧
          ((3 : ℚ) < (stdEnv 3).highCut 0 ∨
            effMultNext cfgTT (stdEnv 3) sigImm 0 < (stdEnv 3).highCut 0)) →
        ((effMultNext cfgTT (stdEnv 3) sigImm 0 < 3 ∧
            effMultNN cfgTT (stdEnv 3) sigImm 0 < (stdEnv 3).lowCut 0 →
            (stripStep cfgTT (stdEnv 3) sigImm 0 initState (fun _ => none)).2 0 =
                some (mergeCorr cfgTT (stdEnv 3) 0 (3 + effMultNext cfgTT (stdEnv 3) sigImm 0)) ∧
              (stripStep cfgTT (stdEnv 3) sigImm 0 initState (fun _ => none)).1.used = true ∧
              (stripStep cfgTT (stdEnv 3) sigImm 0 initState (fun _ => none)).1.eTotal =
                initState.eTotal) ∧
          (¬ (effMultNext cfgTT (stdEnv 3) sigImm 0 < 3 ∧
                effMultNN cfgTT (stdEnv 3) sigImm 0 < (stdEnv 3).lowCut 0) →
            (stripStep cfgTT (stdEnv 3) sigImm 0 initState (fun _ => none)).2 0 = some 0 ∧
              (stripStep cfgTT (stdEnv 3) sigImm 0 initState (fun _ => none)).1.used = false ∧
              (stripStep cfgTT (stdEnv 3) sigImm 0 initState (fun _ => none)).1.eTotal =
                3 + effMultNext cfgTT (stdEnv 3) sigImm 0))) ∧
        (¬ ((stdEnv 3).lowCut 0 < 3 ∧
              (stdEnv 3).lowCut 0 < effMultNext cfgTT (stdEnv 3) sigImm 0 ∧
              ((3 : ℚ) < (stdEnv 3).highCut 0 ∨
                effMultNext cfgTT (stdEnv 3) sigImm 0 < (stdEnv 3).highCut 0)) →
          (stripStep cfgTT (stdEnv 3) sigImm 0 initState (fun _ => none)).1.eTotal =
              initState.eTotal ∧
            (stripStep cfgTT (stdEnv 3) sigImm 0 initState (fun _ => none)).1.used = false ∧
            (stripStep cfgTT (stdEnv 3) sigImm 0 initState (fun _ => none)).2 0 =
              some (mergeCorr cfgTT (stdEnv 3) 0 (if (stdEnv 3).lowCut 0 < 3 then 3 else 0))) :=
  ⟨⟨by norm_num [effMult, doCorr, Option.some_ne_none, sigD, listSig, cfgTT, stdEnv, sigImm, listSig], by norm_num,
      by norm_num [initState], by norm_num [initState]⟩,
    c2_merge_start cfgTT (stdEnv 3) sigImm 0 initState (fun _ => none) 3
      (by norm_num [effMult, doCorr, Option.some_ne_none, sigD, listSig, cfgTT, stdEnv, sigImm, listSig]) (by norm_num)
      (by norm_num [initState]) (by norm_num [initState])⟩

/- ------------------------------------------------------------------ -/
/- Claim C3                                                            -/
/- ------------------------------------------------------------------ -/

/-- Counterexample to C3 as stated: strip 1 carries the signal 1/2,
below the low cut 1, yet with a pending sum 4 and a valid next strip the
step marks the next strip used (three-strip merge) - the merging state
is NOT reset for this below-low-threshold strip. -/
theorem c3_counterexample :
    effMult cfgTT (stdEnv 4) sigBelowLow 1 = some (1 / 2) ∧
      (1 / 2 : ℚ) ≤ (stdEnv 4).lowCut 1 ∧
      (stripStep cfgTT (stdEnv 4) sigBelowLow 1 ⟨false, 4, true⟩ (fun _ => none)).1.used = true ∧
      (stripStep cfgTT (stdEnv 4) sigBelowLow 1 ⟨false, 4, true⟩ (fun _ => none)).1 ≠ initState := by
  refine ⟨?_, ?_, ?_, ?_⟩ <;>
    norm_num [stripStep, effMult, effMultNext, effMultNN, multNextRaw, multNNAdj, doCorr, sigD, Option.some_ne_none,
      mergeCorr, upd, initState, cfgTT, stdEnv, sigBelowLow, listSig]

/-- Claim C3 (amended): the state reset happens for the strips whose
signal is zero or invalid (including dead strips), not for every strip
below the low threshold: such a strip is treated as noise, a pending sum
is flushed to the previous strip, and the merging state (eTotal, used,
twoLow) is reset before the next strip is examined. -/
theorem c3_zero_or_invalid_resets (cfg : Config) (env : SectorEnv)
    (sig : Nat → Option ℚ) (t : Nat) (st : MergeState) (out : Nat → Option ℚ)
    (h : effMult cfg env sig t = none ∨ effMult cfg env sig t = some 0) :
    (stripStep cfg env sig t st out).1 = initState ∧
      (0 < st.eTotal → 0 < t →
        (stripStep cfg env sig t st out).2 (t - 1) = some st.eTotal) ∧
      (effMult cfg env sig t = none → (stripStep cfg env sig t st out).2 t = none) ∧
      (effMult cfg env sig t = some 0 → (stripStep cfg env sig t st out).2 t = some 0) := by
  rcases h with h | h
  · refine ⟨by simp [stripStep, h], ?_, ?_, ?_⟩
    · intro he ht
      have hne : t - 1 ≠ t := by omega
      simp [stripStep, h, he, ht, upd]
    · intro _
      by_cases hf : 0 < st.eTotal ∧ 0 < t
      · have hne : t ≠ t - 1 := by omega
        simp [stripStep, h, hf, upd, hne]
      · simp [stripStep, h, hf, upd]
    · intro h'; rw [h] at h'; exact absurd h' (by simp)
  · refine ⟨by simp [stripStep, h], ?_, ?_, ?_⟩
    · intro he ht
      have hne : t - 1 ≠ t := by omega
      simp [stripStep, h, he, ht, upd]
    · intro h'; rw [h] at h'; exact absurd h' (by simp)
    · intro _
      by_cases hf : 0 < st.eTotal ∧ 0 < t
      · have hne : t ≠ t - 1 := by omega
        simp [stripStep, h, hf, upd, hne]
      · simp [stripStep, h, hf, upd]

/-- Witness for the amended C3: an empty strip (signal 0) at position 2
with pending sum 4 flushes the sum to strip 1 and resets the state. -/
theorem c3_witness :
    (effMult cfgTT (stdEnv 3) sigDeadNbr 2 = none ∨
        effMult cfgTT (stdEnv 3) sigDeadNbr 2 = some 0) ∧
      ((stripStep cfgTT (stdEnv 3) sigDeadNbr 2 ⟨false, 4, false⟩ (fun _ => none)).1 = initState ∧
        ((0 : ℚ) < (⟨false, 4, false⟩ : MergeState).eTotal → 0 < 2 →
          (stripStep cfgTT (stdEnv 3) sigDeadNbr 2 ⟨false, 4, false⟩ (fun _ => none)).2 (2 - 1) =
            some (⟨false, 4, false⟩ : MergeState).eTotal) ∧
        (effMult cfgTT (stdEnv 3) sigDeadNbr 2 = none →
          (stripStep cfgTT (stdEnv 3) sigDeadNbr 2 ⟨false, 4, false⟩ (fun _ => none)).2 2 = none) ∧
        (effMult cfgTT (stdEnv 3) sigDeadNbr 2 = some 0 →
          (stripStep cfgTT (stdEnv 3) sigDeadNbr 2 ⟨false, 4, false⟩ (fun _ => none)).2 2 =
            some 0)) :=
  ⟨Or.inr (by norm_num [effMult, doCorr, Option.some_ne_none, sigD, listSig, cfgTT, stdEnv, sigDeadNbr, listSig]),
    c3_zero_or_invalid_resets cfgTT (stdEnv 3) sigDeadNbr 2 ⟨false, 4, false⟩ (fun _ => none)
      (Or.inr (by norm_num [effMult, doCorr, Option.some_ne_none, sigD, listSig, cfgTT, stdEnv, sigDeadNbr, listSig]))⟩

/- ------------------------------------------------------------------ -/
/- Claim C5                                                            -/
/- ------------------------------------------------------------------ -/

/-- Counterexample to C5 as stated: the single strip [2] with incidence
cosine 1/2.  With fCorrectAngles DISABLED the filter emits 1 = 2 * (1/2),
i.e. the angle correction WAS applied; with fCorrectAngles ENABLED it
emits the uncorrected 2.  This is the reverse of the claim. -/
theorem c5_counterexample :
    cfgNoCA.correctAngles = false ∧
      halfCosEnv.cosTheta 0 = 1 / 2 ∧
      stripEtot cfgNoCA halfCosEnv sigSingle2 initState 0 = 2 ∧
      (stripStep cfgNoCA halfCosEnv sigSingle2 0 initState (fun _ => none)).2 0 = some 1 ∧
      cfgTT.correctAngles = true ∧
      stripEtot cfgTT halfCosEnv sigSingle2 initState 0 = 2 ∧
      (stripStep cfgTT halfCosEnv sigSingle2 0 initState (fun _ => none)).2 0 = some 2 := by
  refine ⟨rfl, by norm_num [halfCosEnv], ?_, ?_, rfl, ?_, ?_⟩ <;>
    norm_num [stripStep, stripEtot, effMult, effMultNext, effMultNN, multNextRaw, multNNAdj,
      doCorr, sigD, Option.some_ne_none, mergeCorr, upd, initState, cfgTT, cfgNoCA, halfCosEnv, sigSingle2, listSig]

/-- Claim C5 (amended): on every strip that reaches the emission code
(valid non-zero signal, not the used-continue path), the output written
at the current strip is the merged amplitude etot multiplied by the
cosine of the incidence angle exactly when fCorrectAngles is DISABLED,
and the unmodified etot when it is enabled (the signals having already
been angle-corrected on input in that case). -/
theorem c5_angle_correct_iff_disabled (cfg : Config) (env : SectorEnv)
    (sig : Nat → Option ℚ) (t : Nat) (st : MergeState) (out : Nat → Option ℚ)
    (m : ℚ) (hm : effMult cfg env sig t = some m) (hm0 : m ≠ 0)
    (hnc : 0 < st.eTotal ∨ st.used = false) :
    (stripStep cfg env sig t st out).2 t =
      some (if cfg.correctAngles = true then stripEtot cfg env sig st t
            else stripEtot cfg env sig st t * env.cosTheta t) := by
  have hgoal : (stripStep cfg env sig t st out).2 t =
      some (mergeCorr cfg env t (stripEtot cfg env sig st t)) := by
    by_cases hp : 0 < st.eTotal
    · by_cases hC : cfg.threeStripSharing = true ∧
          env.lowCut t < effMultNext cfg env sig t ∧
          (effMultNext cfg env sig t < env.highCut t ∨ st.twoLow = true)
      · simp [stripStep, stripEtot, hm, hm0, hp, hC, upd]
      · simp [stripStep, stripEtot, hm, hm0, hp, hC, upd]
    · have hu : st.used = false := by
        rcases hnc with h | h
        · exact absurd h hp
        · exact h
      by_cases hC : env.lowCut t < m ∧ env.lowCut t < effMultNext cfg env sig t ∧
          (m < env.highCut t ∨ effMultNext cfg env sig t < env.highCut t)
      · by_cases hD : effMultNext cfg env sig t < m ∧ effMultNN cfg env sig t < env.lowCut t
        · simp [stripStep, stripEtot, hm, hm0, hp, hu, hC, hD, upd]
        · simp [stripStep, stripEtot, hm, hm0, hp, hu, hC, hD, upd]
      · simp [stripStep, stripEtot, hm, hm0, hp, hu, hC, upd]
  rw [hgoal, mergeCorr]

/-- Witness for the amended C5: the single strip [2] with incidence
cosine 1/2 and fCorrectAngles disabled is emitted as 2 * (1/2). -/
theorem c5_witness :
    (effMult cfgNoCA halfCosEnv sigSingle2 0 = some 2 ∧ (2 : ℚ) ≠ 0 ∧
        ((0 : ℚ) < initState.eTotal ∨ initState.used = false)) ∧
      (stripStep cfgNoCA halfCosEnv sigSingle2 0 initState (fun _ => none)).2 0 =
        some (if cfgNoCA.correctAngles = true then stripEtot cfgNoCA halfCosEnv sigSingle2 initState 0
              else stripEtot cfgNoCA halfCosEnv sigSingle2 initState 0 * halfCosEnv.cosTheta 0) :=
  ⟨⟨by norm_num [effMult, doCorr, Option.some_ne_none, sigD, listSig, cfgNoCA, halfCosEnv, sigSingle2, listSig], by norm_num,
      Or.inr rfl⟩,
    c5_angle_correct_iff_disabled cfgNoCA halfCosEnv sigSingle2 0 initState (fun _ => none) 2
      (by norm_num [effMult, doCorr, Option.some_ne_none, sigD, listSig, cfgNoCA, halfCosEnv, sigSingle2, listSig]) (by norm_num)
      (Or.inr rfl)⟩

/- ------------------------------------------------------------------ -/
/- Claim C7                                                            -/
/- ------------------------------------------------------------------ -/

/-- Claim C7: `Filter` never fails: for every input object, calibration
environment and configuration it returns kTRUE (the function body has a
single `return kTRUE` and no other return statement). -/
theorem c7_filter_returns_true (cfg : Config) (env : Nat → Char → Nat → SectorEnv)
    (sigs : Nat → Char → Nat → Nat → Option ℚ) (etaIn : Nat → Char → Nat → Nat → ℚ)
    (clearMult : Nat → Char → Nat → Nat → Option ℚ)
    (clearEta : Nat → Char → Nat → Nat → ℚ) :
    (Filter cfg env sigs etaIn clearMult clearEta).1 = true := rfl

/- ------------------------------------------------------------------ -/
/- Claim C8                                                            -/
/- ------------------------------------------------------------------ -/

/-- Claim C8: `AddDead` with a malformed address (detector outside 1..3,
outer ring on detector 1, sector out of range for the ring, or strip out
of range for the ring) issues a warning and leaves the dead-strip set
unchanged; for every well-formed address, after `AddDead(d,r,s,t)` the
query `IsDead(d,r,s,t)` returns true.  The theorem holds for every
strip-index packing function. -/
theorem c8_addDead (pack : Nat → Char → Nat → Nat → Nat) (bits : Nat → Bool)
    (d : Nat) (r : Char) (s t : Nat) :
    (malformedAddress d r s t → AddDead pack bits d r s t = (true, bits)) ∧
      (¬ malformedAddress d r s t →
        (AddDead pack bits d r s t).1 = false ∧
          IsDead pack (AddDead pack bits d r s t).2 d r s t = true) := by
  constructor
  · intro h
    unfold malformedAddress at h
    unfold AddDead
    split_ifs with h1 h2 h3 h4
    · rfl
    · rfl
    · rfl
    · rfl
    · exfalso
      rcases h with h | h | h | h | h | h | h
      · exact h1 (Or.inl h)
      · exact h1 (Or.inr h)
      · exact h2 h
      · exact h3 (Or.inl h)
      · exact h3 (Or.inr h)
      · exact h4 (Or.inl h)
      · exact h4 (Or.inr h)
  · intro h
    unfold malformedAddress at h
    unfold AddDead
    split_ifs with h1 h2 h3 h4
    · rcases h1 with h1 | h1
      · exact absurd (Or.inl h1) h
      · exact absurd (Or.inr (Or.inl h1)) h
    · exact absurd (Or.inr (Or.inr (Or.inl h2))) h
    · rcases h3 with h3 | h3
      · exact absurd (Or.inr (Or.inr (Or.inr (Or.inl h3)))) h
      · exact absurd (Or.inr (Or.inr (Or.inr (Or.inr (Or.inl h3))))) h
    · rcases h4 with h4 | h4
      · exact absurd (Or.inr (Or.inr (Or.inr (Or.inr (Or.inr (Or.inl h4)))))) h
      · exact absurd (Or.inr (Or.inr (Or.inr (Or.inr (Or.inr (Or.inr h4)))))) h
    · exact ⟨rfl, by simp [IsDead]⟩

/-- Witness for C8: the address FMD0I[1,2] is malformed and rejected;
the address FMD1I[0,0] is well-formed and becomes dead after AddDead. -/
theorem c8_witness :
    AddDead pack0 bits0 0 'I' 1 2 = (true, bits0) ∧
      ((AddDead pack0 bits0 1 'I' 0 0).1 = false ∧
        IsDead pack0 (AddDead pack0 bits0 1 'I' 0 0).2 1 'I' 0 0 = true) :=
  ⟨(c8_addDead pack0 bits0 0 'I' 1 2).1 (by decide),
    (c8_addDead pack0 bits0 1 'I' 0 0).2 (by decide)⟩

/- ------------------------------------------------------------------ -/
/- Claim C10                                                           -/
/- ------------------------------------------------------------------ -/

/-- Claim C10: `AngleCorrect` and `DeAngleCorrect` are mutually inverse:
for every multiplicity and every eta at which the cosine of the derived
incidence angle is non-zero, each undoes the other (exact arithmetic). -/
theorem c10_angle_inverse (m eta : ℝ) (h : Real.cos (thetaOf eta) ≠ 0) :
    DeAngleCorrect (AngleCorrect m eta) eta = m ∧
      AngleCorrect (DeAngleCorrect m eta) eta = m := by
  unfold AngleCorrect DeAngleCorrect
  exact ⟨mul_div_cancel_right₀ m h, div_mul_cancel₀ m h⟩

/-- Witness for C10 at eta = 1, multiplicity 5: the incidence angle
2*atan(exp(-1)) lies in (0, pi/2), so its cosine is positive. -/
theorem c10_witness :
    Real.cos (thetaOf 1) ≠ 0 ∧
      DeAngleCorrect (AngleCorrect 5 1) 1 = 5 ∧
      AngleCorrect (DeAngleCorrect 5 1) 1 = 5 := by
  have hth : thetaOf 1 = 2 * Real.arctan (Real.exp (-1)) := by
    unfold thetaOf
    rw [if_neg (by norm_num)]
  have h1 : (0 : ℝ) < Real.arctan (Real.exp (-1)) := by
    have := Real.arctan_strictMono (Real.exp_pos (-1))
    rwa [Real.arctan_zero] at this
  have h2 : Real.arctan (Real.exp (-1)) < Real.pi / 4 := by
    have hlt : Real.exp (-1) < 1 := Real.exp_lt_one_iff.mpr (by norm_num)
    have := Real.arctan_strictMono hlt
    rwa [Real.arctan_one] at this
  have hcos : 0 < Real.cos (thetaOf 1) := by
    rw [hth]
    apply Real.cos_pos_of_mem_Ioo
    rw [Set.mem_Ioo]
    constructor
    · nlinarith [Real.pi_pos]
    · nlinarith
  exact ⟨ne_of_gt hcos, (c10_angle_inverse 5 1 (ne_of_gt hcos)).1,
    (c10_angle_inverse 5 1 (ne_of_gt hcos)).2⟩

/- ------------------------------------------------------------------ -/
/- Lemmas about the strip loop                                         -/
/- ------------------------------------------------------------------ -/

theorem runAux_succ (cfg : Config) (env : SectorEnv) (sig : Nat → Option ℚ)
    (st : MergeState) (out : Nat → Option ℚ) (t0 n : Nat) :
    runAux cfg env sig st out t0 (n + 1) =
      runAux cfg env sig (stripStep cfg env sig t0 st out).1
        (stripStep cfg env sig t0 st out).2 (t0 + 1) n := rfl

theorem runAux_add (cfg : Config) (env : SectorEnv) (sig : Nat → Option ℚ) (b : Nat) :
    ∀ (a t0 : Nat) (st : MergeState) (out : Nat → Option ℚ),
      runAux cfg env sig st out t0 (a + b) =
        runAux cfg env sig (runAux cfg env sig st out t0 a).1
          (runAux cfg env sig st out t0 a).2 (t0 + a) b := by
  intro a
  induction a with
  | zero => intro t0 st out; simp [runAux]
  | succ a ih =>
      intro t0 st out
      have h1 : a + 1 + b = (a + b) + 1 := by omega
      rw [h1, runAux_succ, runAux_succ, ih (t0 + 1)]
      have h2 : t0 + 1 + a = t0 + (a + 1) := by omega
      rw [h2]

/-- A strip iteration writes the output only at the current strip and
(for the flush) at the previous one. -/
theorem stripStep_out_other (cfg : Config) (env : SectorEnv) (sig : Nat → Option ℚ)
    (t : Nat) (st : MergeState) (out : Nat → Option ℚ) {p : Nat}
    (hp1 : p ≠ t) (hp2 : p ≠ t - 1) :
    (stripStep cfg env sig t st out).2 p = out p := by
  unfold stripStep
  cases h : effMult cfg env sig t with
  | none => dsimp only; split_ifs <;> simp [upd, hp1, hp2]
  | some m => dsimp only; split_ifs <;> simp [upd, hp1, hp2]

/-- On a valid non-zero strip no flush happens: the previous strip's
output is untouched. -/
theorem stripStep_out_prev_valid (cfg : Config) (env : SectorEnv) (sig : Nat → Option ℚ)
    (t : Nat) (st : MergeState) (out : Nat → Option ℚ) (m : ℚ)
    (hm : effMult cfg env sig t = some m) (hm0 : m ≠ 0) (ht : 0 < t) :
    (stripStep cfg env sig t st out).2 (t - 1) = out (t - 1) := by
  have hne : t - 1 ≠ t := by omega
  unfold stripStep
  rw [hm]
  dsimp only
  rw [if_neg hm0]
  split_ifs <;> simp [upd, hne]

/-- The state produced by a strip iteration does not depend on the
output column. -/
theorem stripStep_fst_out_indep (cfg : Config) (env : SectorEnv) (sig : Nat → Option ℚ)
    (t : Nat) (st : MergeState) (out1 out2 : Nat → Option ℚ) :
    (stripStep cfg env sig t st out1).1 = (stripStep cfg env sig t st out2).1 := by
  unfold stripStep
  cases h : effMult cfg env sig t with
  | none => rfl
  | some m => dsimp only; split_ifs <;> rfl

/-- The output a strip iteration writes at the current strip does not
depend on the incoming output column. -/
theorem stripStep_out_self_indep (cfg : Config) (env : SectorEnv) (sig : Nat → Option ℚ)
    (t : Nat) (st : MergeState) (out1 out2 : Nat → Option ℚ) :
    (stripStep cfg env sig t st out1).2 t = (stripStep cfg env sig t st out2).2 t := by
  unfold stripStep
  cases h : effMult cfg env sig t with
  | none => dsimp only; split_ifs <;> simp [upd]
  | some m => dsimp only; split_ifs <;> simp [upd]

/-- Pointwise: a strip iteration preserves agreement of two output
columns at any position. -/
theorem stripStep_out_pointwise (cfg : Config) (env : SectorEnv) (sig : Nat → Option ℚ)
    (t : Nat) (st : MergeState) (out1 out2 : Nat → Option ℚ) {p : Nat}
    (h : out1 p = out2 p) :
    (stripStep cfg env sig t st out1).2 p = (stripStep cfg env sig t st out2).2 p := by
  unfold stripStep
  cases he : effMult cfg env sig t with
  | none => dsimp only; split_ifs <;> simp [upd, h]
  | some m => dsimp only; split_ifs <;> simp [upd, h]

theorem runAux_fst_out_indep (cfg : Config) (env : SectorEnv) (sig : Nat → Option ℚ) :
    ∀ (n t0 : Nat) (st : MergeState) (out1 out2 : Nat → Option ℚ),
      (runAux cfg env sig st out1 t0 n).1 = (runAux cfg env sig st out2 t0 n).1 := by
  intro n
  induction n with
  | zero => intro t0 st out1 out2; rfl
  | succ n ih =>
      intro t0 st out1 out2
      rw [runAux_succ, runAux_succ,
        stripStep_fst_out_indep cfg env sig t0 st out1 out2]
      exact ih (t0 + 1) _ _ _

theorem runAux_out_pointwise (cfg : Config) (env : SectorEnv) (sig : Nat → Option ℚ) :
    ∀ (n t0 : Nat) (st : MergeState) (out1 out2 : Nat → Option ℚ) (p : Nat),
      out1 p = out2 p →
      (runAux cfg env sig st out1 t0 n).2 p = (runAux cfg env sig st out2 t0 n).2 p := by
  intro n
  induction n with
  | zero => intro t0 st out1 out2 p h; exact h
  | succ n ih =>
      intro t0 st out1 out2 p h
      rw [runAux_succ, runAux_succ,
        stripStep_fst_out_indep cfg env sig t0 st out1 out2]
      exact ih (t0 + 1) _ _ _ p (stripStep_out_pointwise cfg env sig t0 st out1 out2 h)

/-- Positions strictly before t0 - 1 are untouched by the loop from t0. -/
theorem runAux_out_lo (cfg : Config) (env : SectorEnv) (sig : Nat → Option ℚ) :
    ∀ (n t0 : Nat) (st : MergeState) (out : Nat → Option ℚ) (p : Nat),
      p + 1 < t0 → (runAux cfg env sig st out t0 n).2 p = out p := by
  intro n
  induction n with
  | zero => intro t0 st out p _; rfl
  | succ n ih =>
      intro t0 st out p hp
      rw [runAux_succ, ih (t0 + 1) _ _ p (by omega)]
      exact stripStep_out_other cfg env sig t0 st out (by omega) (by omega)

/-- Positions at or past t0 + n are untouched by the loop. -/
theorem runAux_out_hi (cfg : Config) (env : SectorEnv) (sig : Nat → Option ℚ) :
    ∀ (n t0 : Nat) (st : MergeState) (out : Nat → Option ℚ) (p : Nat),
      t0 + n ≤ p → (runAux cfg env sig st out t0 n).2 p = out p := by
  intro n
  induction n with
  | zero => intro t0 st out p _; rfl
  | succ n ih =>
      intro t0 st out p hp
      rw [runAux_succ, ih (t0 + 1) _ _ p (by omega)]
      exact stripStep_out_other cfg env sig t0 st out (by omega) (by omega)

/- Congruence of a strip iteration in the signals it actually reads. -/

theorem effMult_sig_congr (cfg : Config) (env : SectorEnv) (sig1 sig2 : Nat → Option ℚ)
    (t : Nat) (h : sig1 t = sig2 t) :
    effMult cfg env sig1 t = effMult cfg env sig2 t := by
  simp [effMult, doCorr, h]

theorem multNextRaw_sig_congr (env : SectorEnv) (sig1 sig2 : Nat → Option ℚ) (t : Nat)
    (h : t + 1 < env.nstr → sig1 (t + 1) = sig2 (t + 1)) :
    multNextRaw env sig1 t = multNextRaw env sig2 t := by
  unfold multNextRaw
  split_ifs with hc
  · rw [sigD, sigD, h (by omega)]
  · rfl

theorem multNNAdj_sig_congr (cfg : Config) (env : SectorEnv) (sig1 sig2 : Nat → Option ℚ)
    (t : Nat) (h : t + 2 < env.nstr → sig1 (t + 2) = sig2 (t + 2)) :
    multNNAdj cfg env sig1 t = multNNAdj cfg env sig2 t := by
  unfold multNNAdj
  split_ifs with hc hd
  · rw [sigD, sigD, h (by omega)]
  · rfl
  · rfl

theorem effMultNext_sig_congr (cfg : Config) (env : SectorEnv) (sig1 sig2 : Nat → Option ℚ)
    (t : Nat) (h0 : sig1 t = sig2 t)
    (h1 : t + 1 < env.nstr → sig1 (t + 1) = sig2 (t + 1)) :
    effMultNext cfg env sig1 t = effMultNext cfg env sig2 t := by
  have hd : doCorr cfg sig1 t = doCorr cfg sig2 t := by simp [doCorr, h0]
  unfold effMultNext
  rw [hd, multNextRaw_sig_congr env sig1 sig2 t h1]

theorem effMultNN_sig_congr (cfg : Config) (env : SectorEnv) (sig1 sig2 : Nat → Option ℚ)
    (t : Nat) (h0 : sig1 t = sig2 t)
    (h2 : t + 2 < env.nstr → sig1 (t + 2) = sig2 (t + 2)) :
    effMultNN cfg env sig1 t = effMultNN cfg env sig2 t := by
  have hd : doCorr cfg sig1 t = doCorr cfg sig2 t := by simp [doCorr, h0]
  unfold effMultNN
  rw [hd, multNNAdj_sig_congr cfg env sig1 sig2 t h2]

/-- A strip iteration reads only the signals at t, t+1, t+2 (the latter
two only when those strips exist). -/
theorem stripStep_sig_congr (cfg : Config) (env : SectorEnv) (sig1 sig2 : Nat → Option ℚ)
    (t : Nat) (st : MergeState) (out : Nat → Option ℚ) (h0 : sig1 t = sig2 t)
    (h1 : t + 1 < env.nstr → sig1 (t + 1) = sig2 (t + 1))
    (h2 : t + 2 < env.nstr → sig1 (t + 2) = sig2 (t + 2)) :
    stripStep cfg env sig1 t st out = stripStep cfg env sig2 t st out := by
  unfold stripStep
  rw [effMult_sig_congr cfg env sig1 sig2 t h0,
    effMultNext_sig_congr cfg env sig1 sig2 t h0 h1,
    effMultNN_sig_congr cfg env sig1 sig2 t h0 h2]

/-- The loop over strips t0 .. t0+n-1 of a sector of nstr strips reads
only the signals at strips below t0 + n + 2 (and below nstr). -/
theorem runAux_sig_congr (cfg : Config) (env : SectorEnv) (sig1 sig2 : Nat → Option ℚ) :
    ∀ (n t0 : Nat) (st : MergeState) (out : Nat → Option ℚ),
      t0 + n ≤ env.nstr →
      (∀ i, i < env.nstr → i < t0 + n + 2 → sig1 i = sig2 i) →
      runAux cfg env sig1 st out t0 n = runAux cfg env sig2 st out t0 n := by
  intro n
  induction n with
  | zero => intro t0 st out _ _; rfl
  | succ n ih =>
      intro t0 st out hlen hag
      rw [runAux_succ, runAux_succ,
        stripStep_sig_congr cfg env sig1 sig2 t0 st out
          (hag t0 (by omega) (by omega))
          (fun hc => hag (t0 + 1) hc (by omega))
          (fun hc => hag (t0 + 2) hc (by omega))]
      exact ih (t0 + 1) _ _ (by omega) (fun i hi hi2 => hag i hi (by omega))

/-- What a strip iteration at t leaves at position t-1 depends on the
signals only through effMult at t (the flush value is the carried
eTotal). -/
theorem stripStep_out_prev_sig_congr (cfg : Config) (env : SectorEnv)
    (sig1 sig2 : Nat → Option ℚ) (t : Nat) (st : MergeState) (out : Nat → Option ℚ)
    (he : effMult cfg env sig1 t = effMult cfg env sig2 t) (ht : 0 < t) :
    (stripStep cfg env sig1 t st out).2 (t - 1) =
      (stripStep cfg env sig2 t st out).2 (t - 1) := by
  have hne : t - 1 ≠ t := by omega
  unfold stripStep
  rw [he]
  cases h : effMult cfg env sig2 t with
  | none => rfl
  | some m => dsimp only; split_ifs <;> simp [upd, hne]

theorem runAux_one (cfg : Config) (env : SectorEnv) (sig : Nat → Option ℚ)
    (st : MergeState) (out : Nat → Option ℚ) (t0 : Nat) :
    runAux cfg env sig st out t0 1 = stripStep cfg env sig t0 st out := rfl

/- Branch characterizations of one strip iteration.  The branch
conditions are spelled out as in the source (lines 460-587). -/

theorem stripStep_state_reset (cfg : Config) (env : SectorEnv) (sig : Nat → Option ℚ)
    (t : Nat) (st : MergeState) (out : Nat → Option ℚ)
    (h : effMult cfg env sig t = none ∨ effMult cfg env sig t = some 0) :
    (stripStep cfg env sig t st out).1 = initState := by
  rcases h with h | h
  · simp [stripStep, h]
  · simp [stripStep, h]

theorem stripStep_self_none (cfg : Config) (env : SectorEnv) (sig : Nat → Option ℚ)
    (t : Nat) (st : MergeState) (out : Nat → Option ℚ)
    (h : effMult cfg env sig t = none) :
    (stripStep cfg env sig t st out).2 t = none := by
  by_cases hf : 0 < st.eTotal ∧ 0 < t
  · have hne : t ≠ t - 1 := by omega
    simp [stripStep, h, hf, upd, hne]
  · simp [stripStep, h, hf, upd]

theorem stripStep_self_zero (cfg : Config) (env : SectorEnv) (sig : Nat → Option ℚ)
    (t : Nat) (st : MergeState) (out : Nat → Option ℚ)
    (h : effMult cfg env sig t = some 0) :
    (stripStep cfg env sig t st out).2 t = some 0 := by
  by_cases hf : 0 < st.eTotal ∧ 0 < t
  · have hne : t ≠ t - 1 := by omega
    simp [stripStep, h, hf, upd, hne]
  · simp [stripStep, h, hf, upd]

theorem stripStep_prev_flush (cfg : Config) (env : SectorEnv) (sig : Nat → Option ℚ)
    (t : Nat) (st : MergeState) (out : Nat → Option ℚ)
    (h : effMult cfg env sig t = none ∨ effMult cfg env sig t = some 0)
    (hp : 0 < st.eTotal) (ht : 0 < t) :
    (stripStep cfg env sig t st out).2 (t - 1) = some st.eTotal := by
  rcases h with h | h
  · simp [stripStep, h, hp, ht, upd]
  · simp [stripStep, h, hp, ht, upd]

theorem stripStep_prev_noflush (cfg : Config) (env : SectorEnv) (sig : Nat → Option ℚ)
    (t : Nat) (st : MergeState) (out : Nat → Option ℚ)
    (hp : ¬ 0 < st.eTotal) (ht : 0 < t) :
    (stripStep cfg env sig t st out).2 (t - 1) = out (t - 1) := by
  have hne : t - 1 ≠ t := by omega
  unfold stripStep
  cases h : effMult cfg env sig t with
  | none => dsimp only; split_ifs <;> simp_all [upd, hne]
  | some m => dsimp only; split_ifs <;> simp_all [upd, hne]

theorem stripStep_used_cont (cfg : Config) (env : SectorEnv) (sig : Nat → Option ℚ)
    (t : Nat) (st : MergeState) (out : Nat → Option ℚ) (m : ℚ)
    (hm : effMult cfg env sig t = some m) (hm0 : m ≠ 0)
    (hp : ¬ 0 < st.eTotal) (hu : st.used = true) :
    (stripStep cfg env sig t st out).1 = { st with used := false } ∧
      (stripStep cfg env sig t st out).2 t = some 0 := by
  constructor
  · simp [stripStep, hm, hm0, hp, hu]
  · simp [stripStep, hm, hm0, hp, hu, upd]

theorem stripStep_pend3 (cfg : Config) (env : SectorEnv) (sig : Nat → Option ℚ)
    (t : Nat) (st : MergeState) (out : Nat → Option ℚ) (m : ℚ)
    (hm : effMult cfg env sig t = some m) (hm0 : m ≠ 0) (hp : 0 < st.eTotal)
    (hC : cfg.threeStripSharing = true ∧ env.lowCut t < effMultNext cfg env sig t ∧
      (effMultNext cfg env sig t < env.highCut t ∨ st.twoLow = true)) :
    (stripStep cfg env sig t st out).1 = ⟨true, -1, false⟩ ∧
      (stripStep cfg env sig t st out).2 t =
        some (mergeCorr cfg env t (st.eTotal + effMultNext cfg env sig t)) := by
  constructor
  · simp [stripStep, hm, hm0, hp, hC]
  · simp [stripStep, hm, hm0, hp, hC, upd]

theorem stripStep_pend2 (cfg : Config) (env : SectorEnv) (sig : Nat → Option ℚ)
    (t : Nat) (st : MergeState) (out : Nat → Option ℚ) (m : ℚ)
    (hm : effMult cfg env sig t = some m) (hm0 : m ≠ 0) (hp : 0 < st.eTotal)
    (hC : ¬ (cfg.threeStripSharing = true ∧ env.lowCut t < effMultNext cfg env sig t ∧
      (effMultNext cfg env sig t < env.highCut t ∨ st.twoLow = true))) :
    (stripStep cfg env sig t st out).1 = ⟨false, -1, st.twoLow⟩ ∧
      (stripStep cfg env sig t st out).2 t =
        some (mergeCorr cfg env t st.eTotal) := by
  constructor
  · simp [stripStep, hm, hm0, hp, hC]
  · simp [stripStep, hm, hm0, hp, hC, upd]

theorem stripStep_imm (cfg : Config) (env : SectorEnv) (sig : Nat → Option ℚ)
    (t : Nat) (st : MergeState) (out : Nat → Option ℚ) (m : ℚ)
    (hm : effMult cfg env sig t = some m) (hm0 : m ≠ 0) (hp : ¬ 0 < st.eTotal)
    (hu : st.used = false)
    (hC : env.lowCut t < m ∧ env.lowCut t < effMultNext cfg env sig t ∧
      (m < env.highCut t ∨ effMultNext cfg env sig t < env.highCut t))
    (hD : effMultNext cfg env sig t < m ∧ effMultNN cfg env sig t < env.lowCut t) :
    (stripStep cfg env sig t st out).1.used = true ∧
      (stripStep cfg env sig t st out).1.eTotal = st.eTotal ∧
      (stripStep cfg env sig t st out).2 t =
        some (mergeCorr cfg env t (m + effMultNext cfg env sig t)) := by
  refine ⟨?_, ?_, ?_⟩ <;> simp [stripStep, hm, hm0, hp, hu, hC, hD, upd]

theorem stripStep_pendset (cfg : Config) (env : SectorEnv) (sig : Nat → Option ℚ)
    (t : Nat) (st : MergeState) (out : Nat → Option ℚ) (m : ℚ)
    (hm : effMult cfg env sig t = some m) (hm0 : m ≠ 0) (hp : ¬ 0 < st.eTotal)
    (hu : st.used = false)
    (hC : env.lowCut t < m ∧ env.lowCut t < effMultNext cfg env sig t ∧
      (m < env.highCut t ∨ effMultNext cfg env sig t < env.highCut t))
    (hD : ¬ (effMultNext cfg env sig t < m ∧ effMultNN cfg env sig t < env.lowCut t)) :
    (stripStep cfg env sig t st out).1.used = false ∧
      (stripStep cfg env sig t st out).1.eTotal = m + effMultNext cfg env sig t ∧
      (stripStep cfg env sig t st out).2 t = some 0 := by
  refine ⟨?_, ?_, ?_⟩ <;> simp [stripStep, hm, hm0, hp, hu, hC, hD, upd, mergeCorr]

theorem stripStep_single (cfg : Config) (env : SectorEnv) (sig : Nat → Option ℚ)
    (t : Nat) (st : MergeState) (out : Nat → Option ℚ) (m : ℚ)
    (hm : effMult cfg env sig t = some m) (hm0 : m ≠ 0) (hp : ¬ 0 < st.eTotal)
    (hu : st.used = false)
    (hC : ¬ (env.lowCut t < m ∧ env.lowCut t < effMultNext cfg env sig t ∧
      (m < env.highCut t ∨ effMultNext cfg env sig t < env.highCut t))) :
    (stripStep cfg env sig t st out).1.used = false ∧
      (stripStep cfg env sig t st out).1.eTotal = st.eTotal ∧
      (stripStep cfg env sig t st out).2 t =
        some (mergeCorr cfg env t (if env.lowCut t < m then m else 0)) := by
  refine ⟨?_, ?_, ?_⟩ <;> simp [stripStep, hm, hm0, hp, hu, hC, upd]

/-- The only way an iteration leaves a positive pending sum is the
provisional-merge branch: the strip is valid and non-zero, there was no
pending sum, the strip was not consumed, and the recorded sum is
mult + multNext, with 0 written at the current strip. -/
theorem stripStep_pending_inv (cfg : Config) (env : SectorEnv) (sig : Nat → Option ℚ)
    (t : Nat) (st : MergeState) (out : Nat → Option ℚ)
    (hpos : 0 < (stripStep cfg env sig t st out).1.eTotal) :
    ∃ m, effMult cfg env sig t = some m ∧ m ≠ 0 ∧
      (stripStep cfg env sig t st out).1.eTotal = m + effMultNext cfg env sig t ∧
      (stripStep cfg env sig t st out).1.used = false ∧
      (stripStep cfg env sig t st out).2 t = some 0 := by
  cases h : effMult cfg env sig t with
  | none =>
      exfalso
      rw [stripStep_state_reset cfg env sig t st out (Or.inl h)] at hpos
      revert hpos; norm_num [initState]
  | some m =>
      by_cases hm0 : m = 0
      · exfalso
        subst hm0
        rw [stripStep_state_reset cfg env sig t st out (Or.inr h)] at hpos
        revert hpos; norm_num [initState]
      · by_cases hp : 0 < st.eTotal
        · exfalso
          by_cases hC : cfg.threeStripSharing = true ∧
              env.lowCut t < effMultNext cfg env sig t ∧
              (effMultNext cfg env sig t < env.highCut t ∨ st.twoLow = true)
          · rw [(stripStep_pend3 cfg env sig t st out m h hm0 hp hC).1] at hpos
            revert hpos; norm_num
          · rw [(stripStep_pend2 cfg env sig t st out m h hm0 hp hC).1] at hpos
            revert hpos; norm_num
        · by_cases hu : st.used = true
          · exfalso
            rw [(stripStep_used_cont cfg env sig t st out m h hm0 hp hu).1] at hpos
            exact hp hpos
          · have hu' : st.used = false := by revert hu; cases st.used <;> simp
            by_cases hC : env.lowCut t < m ∧ env.lowCut t < effMultNext cfg env sig t ∧
                (m < env.highCut t ∨ effMultNext cfg env sig t < env.highCut t)
            · by_cases hD : effMultNext cfg env sig t < m ∧
                  effMultNN cfg env sig t < env.lowCut t
              · exfalso
                rw [(stripStep_imm cfg env sig t st out m h hm0 hp hu' hC hD).2.1] at hpos
                exact hp hpos
              · obtain ⟨h1, h2, h3⟩ := stripStep_pendset cfg env sig t st out m h hm0 hp hu' hC hD
                exact ⟨m, rfl, hm0, h2, h1, h3⟩
            · exfalso
              rw [(stripStep_single cfg env sig t st out m h hm0 hp hu' hC).2.1] at hpos
              exact hp hpos

/- How the signal pipeline relates the decision quantities to the raw
signals and the recalculation factor. -/

/-- A valid non-zero mult is the raw signal scaled by the recalculation
factor in effect at this iteration. -/
theorem effMult_scaled (cfg : Config) (env : SectorEnv) (sig : Nat → Option ℚ)
    (t : Nat) (m : ℚ) (hm : effMult cfg env sig t = some m) (hm0 : m ≠ 0) :
    m = corrAt cfg env sig t * sigD sig t := by
  unfold effMult at hm
  unfold corrAt
  cases hdc : doCorr cfg sig t with
  | true =>
      rw [hdc] at hm
      cases hs : sig t with
      | none =>
          exfalso
          unfold doCorr at hdc
          rw [hs] at hdc
          simp at hdc
      | some q =>
          rw [hs] at hm
          simp at hm
          rw [if_pos rfl]
          simp [sigD, hs]
          rw [← hm.2]
          ring
  | false =>
      rw [hdc] at hm
      simp only [Bool.false_eq_true, if_false] at hm
      rw [if_neg (by simp [hdc])]
      cases hs : sig t with
      | none =>
          exfalso
          rw [hs] at hm
          by_cases hie : cfg.invalidIsEmpty = true
          · simp [hie] at hm
            rcases hm with ⟨h1, h2⟩
            exact hm0 h2.symm
          · simp [hie] at hm
      | some q =>
          rw [hs] at hm
          simp at hm
          simp [sigD, hs, hm.2]

/-- multNext as used by the decision logic is the raw next-strip signal
scaled by the recalculation factor in effect at this iteration. -/
theorem effMultNext_scaled (cfg : Config) (env : SectorEnv) (sig : Nat → Option ℚ)
    (t : Nat) :
    effMultNext cfg env sig t = corrAt cfg env sig t * multNextRaw env sig t := by
  unfold effMultNext corrAt
  split_ifs with h
  · ring
  · ring

theorem effMultNN_last (cfg : Config) (env : SectorEnv) (sig : Nat → Option ℚ)
    (t : Nat) (h : env.nstr - 2 ≤ t) : effMultNN cfg env sig t = 0 := by
  have hz : multNNAdj cfg env sig t = 0 := by
    unfold multNNAdj
    split_ifs with h1 h2
    · omega
    · rfl
    · rfl
  unfold effMultNN
  rw [hz]
  split_ifs <;> simp

theorem multNextRaw_in (env : SectorEnv) (sig : Nat → Option ℚ) (t : Nat)
    (h : t + 1 < env.nstr) : multNextRaw env sig t = sigD sig (t + 1) := by
  unfold multNextRaw
  rw [if_pos (by omega)]

theorem multNextRaw_out (env : SectorEnv) (sig : Nat → Option ℚ) (t : Nat)
    (h : env.nstr ≤ t + 1) : multNextRaw env sig t = 0 := by
  unfold multNextRaw
  rw [if_neg (by omega)]

theorem clusterSum_one (cfg : Config) (env : SectorEnv) (sig : Nat → Option ℚ) (a : Nat) :
    clusterSum cfg env sig a 1 = corrAt cfg env sig a * sigD sig a := rfl

theorem clusterSum_two (cfg : Config) (env : SectorEnv) (sig : Nat → Option ℚ) (a : Nat) :
    clusterSum cfg env sig a 2 =
      corrAt cfg env sig a * (sigD sig a + sigD sig (a + 1)) := rfl

theorem clusterSum_three (cfg : Config) (env : SectorEnv) (sig : Nat → Option ℚ) (a : Nat) :
    clusterSum cfg env sig a 3 =
      corrAt cfg env sig a * (sigD sig a + sigD sig (a + 1)) +
        corrAt cfg env sig (a + 1) * sigD sig (a + 2) := rfl

/- Stage decomposition of the sector pass. -/

theorem stage_succ (cfg : Config) (env : SectorEnv) (sig : Nat → Option ℚ)
    (out0 : Nat → Option ℚ) (k : Nat) :
    runAux cfg env sig initState out0 0 (k + 1) =
      stripStep cfg env sig k (runAux cfg env sig initState out0 0 k).1
        (runAux cfg env sig initState out0 0 k).2 := by
  rw [runAux_add cfg env sig 1 k 0 initState out0, runAux_one]
  simp only [Nat.zero_add]

theorem final_eq_stage (cfg : Config) (env : SectorEnv) (sig : Nat → Option ℚ)
    (out0 : Nat → Option ℚ) (k p : Nat) (hk : k ≤ env.nstr) (hp : p + 1 < k) :
    (runAux cfg env sig initState out0 0 env.nstr).2 p =
      (runAux cfg env sig initState out0 0 k).2 p := by
  have hd : env.nstr = k + (env.nstr - k) := by omega
  rw [hd, runAux_add cfg env sig (env.nstr - k) k 0 initState out0]
  exact runAux_out_lo cfg env sig _ _ _ _ p (by omega)

/-- A positive pending sum at stage k was recorded by the previous
iteration: k = j+1, the strip j was valid and non-zero, the sum is
mult_j + multNext_j, and strip j's output is 0. -/
theorem runAux_pending (cfg : Config) (env : SectorEnv) (sig : Nat → Option ℚ)
    (out0 : Nat → Option ℚ) (k : Nat)
    (hpos : 0 < (runAux cfg env sig initState out0 0 k).1.eTotal) :
    ∃ j m, k = j + 1 ∧ effMult cfg env sig j = some m ∧ m ≠ 0 ∧
      (runAux cfg env sig initState out0 0 k).1.eTotal =
        m + effMultNext cfg env sig j ∧
      (runAux cfg env sig initState out0 0 k).1.used = false ∧
      (runAux cfg env sig initState out0 0 k).2 j = some 0 := by
  cases k with
  | zero =>
      exfalso
      revert hpos
      norm_num [runAux, initState]
  | succ j =>
      rw [stage_succ cfg env sig out0 j] at hpos ⊢
      obtain ⟨m, hm, hm0, he, hu, ho⟩ := stripStep_pending_inv cfg env sig j
        (runAux cfg env sig initState out0 0 j).1
        (runAux cfg env sig initState out0 0 j).2 hpos
      exact ⟨j, m, rfl, hm, hm0, he, hu, ho⟩

/-- A strip that enters its iteration flagged used, with no pending sum,
ends with final output 0 or the invalid marker. -/
theorem runAux_used_nbr (cfg : Config) (env : SectorEnv) (sig : Nat → Option ℚ)
    (out0 : Nat → Option ℚ) (j : Nat) (hj : j < env.nstr)
    (hu : (runAux cfg env sig initState out0 0 j).1.used = true)
    (he : (runAux cfg env sig initState out0 0 j).1.eTotal ≤ 0) :
    (runAux cfg env sig initState out0 0 env.nstr).2 j = some 0 ∨
      (runAux cfg env sig initState out0 0 env.nstr).2 j = none := by
  have hnp : ¬ 0 < (runAux cfg env sig initState out0 0 j).1.eTotal := not_lt.mpr he
  have hstep := stage_succ cfg env sig out0 j
  have hout : ((runAux cfg env sig initState out0 0 (j + 1)).2 j = some 0 ∨
      (runAux cfg env sig initState out0 0 (j + 1)).2 j = none) ∧
      (runAux cfg env sig initState out0 0 (j + 1)).1.eTotal ≤ 0 := by
    rw [hstep]
    cases hm : effMult cfg env sig j with
    | none =>
        refine ⟨Or.inr (stripStep_self_none cfg env sig j _ _ hm), ?_⟩
        rw [stripStep_state_reset cfg env sig j _ _ (Or.inl hm)]
        norm_num [initState]
    | some m =>
        by_cases hm0 : m = 0
        · subst hm0
          refine ⟨Or.inl (stripStep_self_zero cfg env sig j _ _ hm), ?_⟩
          rw [stripStep_state_reset cfg env sig j _ _ (Or.inr hm)]
          norm_num [initState]
        · obtain ⟨h1, h2⟩ := stripStep_used_cont cfg env sig j _ _ m hm hm0 hnp hu
          refine ⟨Or.inl h2, ?_⟩
          rw [h1]
          exact he
  by_cases hend : j + 1 = env.nstr
  · rw [← hend]
    exact hout.1
  · have hk : j + 2 ≤ env.nstr := by omega
    rw [final_eq_stage cfg env sig out0 (j + 2) j hk (by omega)]
    have hstep2 := stage_succ cfg env sig out0 (j + 1)
    rw [hstep2]
    have hnf := stripStep_prev_noflush cfg env sig (j + 1)
      (runAux cfg env sig initState out0 0 (j + 1)).1
      (runAux cfg env sig initState out0 0 (j + 1)).2
      (not_lt.mpr hout.2) (by omega)
    simp only [Nat.add_sub_cancel] at hnf
    rw [hnf]
    exact hout.1

/-- When no pending sum leaves iteration t, the output at strip t is
final after iteration t (no later flush can overwrite it). -/
theorem final_self_of_no_pending (cfg : Config) (env : SectorEnv) (sig : Nat → Option ℚ)
    (out0 : Nat → Option ℚ) (t : Nat) (ht : t < env.nstr)
    (hnp : ¬ 0 < (runAux cfg env sig initState out0 0 (t + 1)).1.eTotal) :
    (runAux cfg env sig initState out0 0 env.nstr).2 t =
      (runAux cfg env sig initState out0 0 (t + 1)).2 t := by
  by_cases hend : t + 1 = env.nstr
  · rw [← hend]
  · rw [final_eq_stage cfg env sig out0 (t + 2) t (by omega) (by omega),
      stage_succ cfg env sig out0 (t + 1)]
    have hnf := stripStep_prev_noflush cfg env sig (t + 1)
      (runAux cfg env sig initState out0 0 (t + 1)).1
      (runAux cfg env sig initState out0 0 (t + 1)).2 hnp (by omega)
    simp only [Nat.add_sub_cancel] at hnf
    rw [hnf]

/-- A strip with a zero or invalid signal ends with final output 0 or
the invalid marker. -/
theorem runAux_zeroinv_nbr (cfg : Config) (env : SectorEnv) (sig : Nat → Option ℚ)
    (out0 : Nat → Option ℚ) (j : Nat) (hj : j < env.nstr)
    (hzi : effMult cfg env sig j = none ∨ effMult cfg env sig j = some 0) :
    (runAux cfg env sig initState out0 0 env.nstr).2 j = some 0 ∨
      (runAux cfg env sig initState out0 0 env.nstr).2 j = none := by
  have hstate : (runAux cfg env sig initState out0 0 (j + 1)).1 = initState := by
    rw [stage_succ cfg env sig out0 j]
    exact stripStep_state_reset cfg env sig j _ _ hzi
  have hnp : ¬ 0 < (runAux cfg env sig initState out0 0 (j + 1)).1.eTotal := by
    rw [hstate]
    norm_num [initState]
  rw [final_self_of_no_pending cfg env sig out0 j hj hnp, stage_succ cfg env sig out0 j]
  rcases hzi with hzi | hzi
  · exact Or.inr (stripStep_self_none cfg env sig j _ _ hzi)
  · exact Or.inl (stripStep_self_zero cfg env sig j _ _ hzi)

/- ------------------------------------------------------------------ -/
/- Claim C4                                                            -/
/- ------------------------------------------------------------------ -/

/-- Claim C4 (amended): for every input and configuration, every output
strip of a sector pass holds the invalid marker, zero, or the merged
amplitude of a cluster of 1, 2 or 3 consecutive strips containing the
emission strip and lying inside the sector - the cluster's signals, each
scaled by the eta-recalculation factor in effect when it was read,
written either raw (the flush path) or with the in-loop angle
treatment - and the output at every other strip of that cluster is zero
or the invalid marker (the latter when a consumed strip is dead). -/
theorem c4_cluster_shape (cfg : Config) (env : SectorEnv) (sig : Nat → Option ℚ)
    (out0 : Nat → Option ℚ) (t : Nat) (ht : t < env.nstr) :
    sectorRun cfg env sig out0 t = none ∨ sectorRun cfg env sig out0 t = some 0 ∨
      ∃ a len, 0 < len ∧ len ≤ 3 ∧ a ≤ t ∧ t < a + len ∧ a + len ≤ env.nstr ∧
        (sectorRun cfg env sig out0 t = some (clusterSum cfg env sig a len) ∨
          sectorRun cfg env sig out0 t =
            some (mergeCorr cfg env t (clusterSum cfg env sig a len))) ∧
        (∀ i, a ≤ i → i < a + len → i ≠ t →
          sectorRun cfg env sig out0 i = some 0 ∨ sectorRun cfg env sig out0 i = none) := by
  unfold sectorRun
  cases hm : effMult cfg env sig t with
  | none =>
      rcases runAux_zeroinv_nbr cfg env sig out0 t ht (Or.inl hm) with h | h
      · exact Or.inr (Or.inl h)
      · exact Or.inl h
  | some m =>
      by_cases hm0 : m = 0
      · subst hm0
        rcases runAux_zeroinv_nbr cfg env sig out0 t ht (Or.inr hm) with h | h
        · exact Or.inr (Or.inl h)
        · exact Or.inl h
      · have hscaled : m = corrAt cfg env sig t * sigD sig t :=
          effMult_scaled cfg env sig t m hm hm0
        by_cases hp : 0 < (runAux cfg env sig initState out0 0 t).1.eTotal
        · -- a pending sum exists: it was set at strip j with t = j + 1
          obtain ⟨j, m', hjk, hmj, hmj0, hesum, hused, houtj⟩ :=
            runAux_pending cfg env sig out0 t hp
          subst hjk
          have hscaledj : m' = corrAt cfg env sig j * sigD sig j :=
            effMult_scaled cfg env sig j m' hmj hmj0
          have hE : (runAux cfg env sig initState out0 0 (j + 1)).1.eTotal =
              clusterSum cfg env sig j 2 := by
            rw [hesum, hscaledj, effMultNext_scaled cfg env sig j,
              multNextRaw_in env sig j (by omega), clusterSum_two]
            ring
          have hfinj : (runAux cfg env sig initState out0 0 env.nstr).2 j = some 0 := by
            rw [final_eq_stage cfg env sig out0 (j + 2) j (by omega) (by omega),
              stage_succ cfg env sig out0 (j + 1)]
            have hpv := stripStep_out_prev_valid cfg env sig (j + 1)
              (runAux cfg env sig initState out0 0 (j + 1)).1
              (runAux cfg env sig initState out0 0 (j + 1)).2 m hm hm0 (by omega)
            simp only [Nat.add_sub_cancel] at hpv
            rw [hpv]
            exact houtj
          by_cases hC : cfg.threeStripSharing = true ∧
              env.lowCut (j + 1) < effMultNext cfg env sig (j + 1) ∧
              (effMultNext cfg env sig (j + 1) < env.highCut (j + 1) ∨
                (runAux cfg env sig initState out0 0 (j + 1)).1.twoLow = true)
          · -- three-strip merge, emitted at j+1
            obtain ⟨hst', hout'⟩ := stripStep_pend3 cfg env sig (j + 1)
              (runAux cfg env sig initState out0 0 (j + 1)).1
              (runAux cfg env sig initState out0 0 (j + 1)).2 m hm hm0 hp hC
            have hstate2 : (runAux cfg env sig initState out0 0 (j + 2)).1 =
                ⟨true, -1, false⟩ := by
              rw [stage_succ cfg env sig out0 (j + 1)]; exact hst'
            have hnp2 : ¬ 0 < (runAux cfg env sig initState out0 0 (j + 2)).1.eTotal := by
              rw [hstate2]; norm_num
            have hfin_t : (runAux cfg env sig initState out0 0 env.nstr).2 (j + 1) =
                some (mergeCorr cfg env (j + 1)
                  ((runAux cfg env sig initState out0 0 (j + 1)).1.eTotal +
                    effMultNext cfg env sig (j + 1))) := by
              rw [final_self_of_no_pending cfg env sig out0 (j + 1) ht hnp2,
                stage_succ cfg env sig out0 (j + 1)]
              exact hout'
            by_cases hnext : j + 2 < env.nstr
            · have hmn : effMultNext cfg env sig (j + 1) =
                  corrAt cfg env sig (j + 1) * sigD sig (j + 2) := by
                rw [effMultNext_scaled cfg env sig (j + 1),
                  multNextRaw_in env sig (j + 1) (by omega)]
              refine Or.inr (Or.inr ⟨j, 3, by omega, by omega, by omega, by omega,
                by omega, Or.inr ?_, ?_⟩)
              · rw [hfin_t, hE, hmn, clusterSum_three, clusterSum_two]
              · intro i hi1 hi2 hit
                have hij : i = j ∨ i = j + 2 := by omega
                rcases hij with rfl | rfl
                · exact Or.inl hfinj
                · exact runAux_used_nbr cfg env sig out0 (j + 2) hnext
                    (by rw [hstate2]) (by rw [hstate2]; norm_num)
            · have hmn0 : effMultNext cfg env sig (j + 1) = 0 := by
                rw [effMultNext_scaled cfg env sig (j + 1),
                  multNextRaw_out env sig (j + 1) (by omega), mul_zero]
              refine Or.inr (Or.inr ⟨j, 2, by omega, by omega, by omega, by omega,
                by omega, Or.inr ?_, ?_⟩)
              · rw [hfin_t, hmn0, add_zero, hE]
              · intro i hi1 hi2 hit
                have hij : i = j := by omega
                subst hij
                exact Or.inl hfinj
          · -- the pending sum is finalized as a two-strip cluster at j+1
            obtain ⟨hst', hout'⟩ := stripStep_pend2 cfg env sig (j + 1)
              (runAux cfg env sig initState out0 0 (j + 1)).1
              (runAux cfg env sig initState out0 0 (j + 1)).2 m hm hm0 hp hC
            have hstate2 : (runAux cfg env sig initState out0 0 (j + 2)).1 =
                ⟨false, -1, (runAux cfg env sig initState out0 0 (j + 1)).1.twoLow⟩ := by
              rw [stage_succ cfg env sig out0 (j + 1)]; exact hst'
            have hnp2 : ¬ 0 < (runAux cfg env sig initState out0 0 (j + 2)).1.eTotal := by
              rw [hstate2]; norm_num
            have hfin_t : (runAux cfg env sig initState out0 0 env.nstr).2 (j + 1) =
                some (mergeCorr cfg env (j + 1)
                  (runAux cfg env sig initState out0 0 (j + 1)).1.eTotal) := by
              rw [final_self_of_no_pending cfg env sig out0 (j + 1) ht hnp2,
                stage_succ cfg env sig out0 (j + 1)]
              exact hout'
            refine Or.inr (Or.inr ⟨j, 2, by omega, by omega, by omega, by omega,
              by omega, Or.inr ?_, ?_⟩)
            · rw [hfin_t, hE]
            · intro i hi1 hi2 hit
              have hij : i = j := by omega
              subst hij
              exact Or.inl hfinj
        · -- no pending sum
          by_cases hu : (runAux cfg env sig initState out0 0 t).1.used = true
          · -- the strip was consumed by the previous iteration
            obtain ⟨hst', hout'⟩ := stripStep_used_cont cfg env sig t
              (runAux cfg env sig initState out0 0 t).1
              (runAux cfg env sig initState out0 0 t).2 m hm hm0 hp hu
            have hnp2 : ¬ 0 < (runAux cfg env sig initState out0 0 (t + 1)).1.eTotal := by
              rw [stage_succ cfg env sig out0 t, hst']
              simpa using hp
            refine Or.inr (Or.inl ?_)
            rw [final_self_of_no_pending cfg env sig out0 t ht hnp2,
              stage_succ cfg env sig out0 t]
            exact hout'
          · have hu' : (runAux cfg env sig initState out0 0 t).1.used = false := by
              revert hu
              cases (runAux cfg env sig initState out0 0 t).1.used <;> simp
            by_cases hC : env.lowCut t < m ∧ env.lowCut t < effMultNext cfg env sig t ∧
                (m < env.highCut t ∨ effMultNext cfg env sig t < env.highCut t)
            · by_cases hD : effMultNext cfg env sig t < m ∧
                  effMultNN cfg env sig t < env.lowCut t
              · -- immediate two-strip cluster at t, consuming t+1
                obtain ⟨hused', hetot', hout'⟩ := stripStep_imm cfg env sig t
                  (runAux cfg env sig initState out0 0 t).1
                  (runAux cfg env sig initState out0 0 t).2 m hm hm0 hp hu' hC hD
                have hnext : t + 1 < env.nstr := by
                  by_contra hge
                  have h0 : effMultNext cfg env sig t = 0 := by
                    rw [effMultNext_scaled cfg env sig t,
                      multNextRaw_out env sig t (by omega), mul_zero]
                  have h00 : effMultNN cfg env sig t = 0 :=
                    effMultNN_last cfg env sig t (by omega)
                  rw [h0] at hC
                  rw [h00] at hD
                  linarith [hC.2.1, hD.2]
                have hnp2 : ¬ 0 < (runAux cfg env sig initState out0 0 (t + 1)).1.eTotal := by
                  rw [stage_succ cfg env sig out0 t, hetot']
                  exact hp
                have hfin_t : (runAux cfg env sig initState out0 0 env.nstr).2 t =
                    some (mergeCorr cfg env t (m + effMultNext cfg env sig t)) := by
                  rw [final_self_of_no_pending cfg env sig out0 t ht hnp2,
                    stage_succ cfg env sig out0 t]
                  exact hout'
                have hsum : m + effMultNext cfg env sig t =
                    clusterSum cfg env sig t 2 := by
                  rw [hscaled, effMultNext_scaled cfg env sig t,
                    multNextRaw_in env sig t hnext, clusterSum_two]
                  ring
                refine Or.inr (Or.inr ⟨t, 2, by omega, by omega, le_refl t, by omega,
                  by omega, Or.inr ?_, ?_⟩)
                · rw [hfin_t, hsum]
                · intro i hi1 hi2 hit
                  have hii : i = t + 1 := by omega
                  subst hii
                  refine runAux_used_nbr cfg env sig out0 (t + 1) hnext ?_ ?_
                  · rw [stage_succ cfg env sig out0 t]
                    exact hused'
                  · rw [stage_succ cfg env sig out0 t, hetot']
                    exact not_lt.mp hp
              · -- provisional merge recorded at t
                obtain ⟨hused', hetot', hout'⟩ := stripStep_pendset cfg env sig t
                  (runAux cfg env sig initState out0 0 t).1
                  (runAux cfg env sig initState out0 0 t).2 m hm hm0 hp hu' hC hD
                by_cases hend : t + 1 = env.nstr
                · -- last strip: the pending sum is dropped, output stays 0
                  refine Or.inr (Or.inl ?_)
                  rw [← hend, stage_succ cfg env sig out0 t]
                  exact hout'
                · have hnext : t + 1 < env.nstr := by omega
                  have hEt1 : (runAux cfg env sig initState out0 0 (t + 1)).1.eTotal =
                      m + effMultNext cfg env sig t := by
                    rw [stage_succ cfg env sig out0 t]
                    exact hetot'
                  by_cases hval : ∃ q, effMult cfg env sig (t + 1) = some q ∧ q ≠ 0
                  · -- valid next strip: no flush, output at t stays 0
                    refine Or.inr (Or.inl ?_)
                    obtain ⟨q, hq, hq0⟩ := hval
                    rw [final_eq_stage cfg env sig out0 (t + 2) t (by omega) (by omega),
                      stage_succ cfg env sig out0 (t + 1)]
                    have hpv := stripStep_out_prev_valid cfg env sig (t + 1)
                      (runAux cfg env sig initState out0 0 (t + 1)).1
                      (runAux cfg env sig initState out0 0 (t + 1)).2 q hq hq0 (by omega)
                    simp only [Nat.add_sub_cancel] at hpv
                    rw [hpv, stage_succ cfg env sig out0 t]
                    exact hout'
                  · have hzi : effMult cfg env sig (t + 1) = none ∨
                        effMult cfg env sig (t + 1) = some 0 := by
                      cases hm1 : effMult cfg env sig (t + 1) with
                      | none => exact Or.inl rfl
                      | some q =>
                          by_cases hq0 : q = 0
                          · subst hq0; exact Or.inr rfl
                          · exact absurd ⟨q, hm1, hq0⟩ hval
                    by_cases hpos : 0 < m + effMultNext cfg env sig t
                    · -- the next strip is empty or dead: the pending sum is
                      -- flushed (uncorrected) back onto strip t
                      have hflush := stripStep_prev_flush cfg env sig (t + 1)
                        (runAux cfg env sig initState out0 0 (t + 1)).1
                        (runAux cfg env sig initState out0 0 (t + 1)).2 hzi
                        (by rw [hEt1]; exact hpos) (by omega)
                      simp only [Nat.add_sub_cancel] at hflush
                      have hfint : (runAux cfg env sig initState out0 0 env.nstr).2 t =
                          some ((runAux cfg env sig initState out0 0 (t + 1)).1.eTotal) := by
                        rw [final_eq_stage cfg env sig out0 (t + 2) t (by omega) (by omega),
                          stage_succ cfg env sig out0 (t + 1), hflush]
                      have hsum : m + effMultNext cfg env sig t =
                          clusterSum cfg env sig t 2 := by
                        rw [hscaled, effMultNext_scaled cfg env sig t,
                          multNextRaw_in env sig t hnext, clusterSum_two]
                        ring
                      refine Or.inr (Or.inr ⟨t, 2, by omega, by omega, le_refl t, by omega,
                        by omega, Or.inl ?_, ?_⟩)
                      · rw [hfint, hEt1, hsum]
                      · intro i hi1 hi2 hit
                        have hii : i = t + 1 := by omega
                        subst hii
                        exact runAux_zeroinv_nbr cfg env sig out0 (t + 1) hnext hzi
                    · -- degenerate pending sum (not positive): never flushed
                      refine Or.inr (Or.inl ?_)
                      have hnp2 : ¬ 0 <
                          (runAux cfg env sig initState out0 0 (t + 1)).1.eTotal := by
                        rw [hEt1]
                        exact hpos
                      rw [final_self_of_no_pending cfg env sig out0 t ht hnp2,
                        stage_succ cfg env sig out0 t]
                      exact hout'
            · -- single strip (emitted alone when above the low cut)
              obtain ⟨hused', hetot', hout'⟩ := stripStep_single cfg env sig t
                (runAux cfg env sig initState out0 0 t).1
                (runAux cfg env sig initState out0 0 t).2 m hm hm0 hp hu' hC
              have hnp2 : ¬ 0 < (runAux cfg env sig initState out0 0 (t + 1)).1.eTotal := by
                rw [stage_succ cfg env sig out0 t, hetot']
                exact hp
              have hfin_t : (runAux cfg env sig initState out0 0 env.nstr).2 t =
                  some (mergeCorr cfg env t (if env.lowCut t < m then m else 0)) := by
                rw [final_self_of_no_pending cfg env sig out0 t ht hnp2,
                  stage_succ cfg env sig out0 t]
                exact hout'
              by_cases hv : env.lowCut t < m
              · refine Or.inr (Or.inr ⟨t, 1, by omega, by omega, le_refl t, by omega,
                  by omega, Or.inr ?_, ?_⟩)
                · rw [hfin_t, if_pos hv, clusterSum_one, ← hscaled]
                · intro i hi1 hi2 hit
                  omega
              · refine Or.inr (Or.inl ?_)
                rw [hfin_t, if_neg hv, mergeCorr_zero]

/-- Counterexample to C4 as stated: on strips [2,2,0] with strip 1
marked dead, the pending two-strip sum 4 (strips 0 and 1) is flushed to
strip 0 while strip 1's output is the INVALID marker, not zero: the
cluster's consumed neighbor does not read zero, and no 1-3 strip block
containing strip 0 represents the output with all its other strips
zero. -/
theorem c4_counterexample :
    sectorRun cfgTT deadEnv1 sigDeadNbr (fun _ => none) 0 = some 4 ∧
      sectorRun cfgTT deadEnv1 sigDeadNbr (fun _ => none) 1 = none ∧
      ¬ ∃ a len, 0 < len ∧ len ≤ 3 ∧ a ≤ 0 ∧ 0 < a + len ∧ a + len ≤ 3 ∧
          (sectorRun cfgTT deadEnv1 sigDeadNbr (fun _ => none) 0 =
              some (clusterSum cfgTT deadEnv1 sigDeadNbr a len) ∨
            sectorRun cfgTT deadEnv1 sigDeadNbr (fun _ => none) 0 =
              some (mergeCorr cfgTT deadEnv1 0 (clusterSum cfgTT deadEnv1 sigDeadNbr a len))) ∧
          (∀ i, a ≤ i → i < a + len → i ≠ 0 →
            sectorRun cfgTT deadEnv1 sigDeadNbr (fun _ => none) i = some 0) := by
  have e0 : sectorRun cfgTT deadEnv1 sigDeadNbr (fun _ => none) 0 = some 4 := by
    norm_num [sectorRun, runAux, stripStep, effMult, effMultNext, effMultNN,
      multNextRaw, multNNAdj, doCorr, sigD, Option.some_ne_none, mergeCorr, upd, initState,
      cfgTT, deadEnv1, sigDeadNbr, listSig]
  have e1 : sectorRun cfgTT deadEnv1 sigDeadNbr (fun _ => none) 1 = none := by
    norm_num [sectorRun, runAux, stripStep, effMult, effMultNext, effMultNN,
      multNextRaw, multNNAdj, doCorr, sigD, Option.some_ne_none, mergeCorr, upd, initState,
      cfgTT, deadEnv1, sigDeadNbr, listSig]
  refine ⟨e0, e1, ?_⟩
  rintro ⟨a, len, hlen0, hlen3, ha, hal, hal3, hrep, hnbr⟩
  have ha0 : a = 0 := by omega
  subst ha0
  interval_cases len
  · rcases hrep with h | h
    · rw [e0] at h
      norm_num [clusterSum, corrAt, doCorr, sigD, sigDeadNbr, listSig, cfgTT] at h
    · rw [e0] at h
      norm_num [clusterSum, corrAt, doCorr, sigD, sigDeadNbr, listSig, mergeCorr, cfgTT] at h
  · have h1 := hnbr 1 (by omega) (by omega) (by omega)
    rw [e1] at h1
    exact Option.noConfusion h1
  · have h1 := hnbr 1 (by omega) (by omega) (by omega)
    rw [e1] at h1
    exact Option.noConfusion h1

/-- Witness for the amended C4: strips [3,2,0] with cuts (1,10) give an
immediate two-strip cluster; the conclusion of the cluster-shape theorem
holds at strip 0. -/
theorem c4_witness :
    0 < (stdEnv 3).nstr ∧
      (sectorRun cfgTT (stdEnv 3) sigImm (fun _ => none) 0 = none ∨
        sectorRun cfgTT (stdEnv 3) sigImm (fun _ => none) 0 = some 0 ∨
        ∃ a len, 0 < len ∧ len ≤ 3 ∧ a ≤ 0 ∧ 0 < a + len ∧ a + len ≤ (stdEnv 3).nstr ∧
          (sectorRun cfgTT (stdEnv 3) sigImm (fun _ => none) 0 =
              some (clusterSum cfgTT (stdEnv 3) sigImm a len) ∨
            sectorRun cfgTT (stdEnv 3) sigImm (fun _ => none) 0 =
              some (mergeCorr cfgTT (stdEnv 3) 0 (clusterSum cfgTT (stdEnv 3) sigImm a len))) ∧
          (∀ i, a ≤ i → i < a + len → i ≠ 0 →
            sectorRun cfgTT (stdEnv 3) sigImm (fun _ => none) i = some 0 ∨
              sectorRun cfgTT (stdEnv 3) sigImm (fun _ => none) i = none)) :=
  ⟨by norm_num [stdEnv],
    c4_cluster_shape cfgTT (stdEnv 3) sigImm (fun _ => none) 0
      (by norm_num [stdEnv])⟩

/- ------------------------------------------------------------------ -/
/- Claim C6                                                            -/
/- ------------------------------------------------------------------ -/

/-- The sector pass is a single deterministic pass with a two-strip
lookahead: the output at strip t is unchanged under any change of the
input signals at strips above t+2 of the sector. -/
theorem sectorRun_locality (cfg : Config) (env : SectorEnv) (sig1 sig2 : Nat → Option ℚ)
    (out0 : Nat → Option ℚ) (t : Nat)
    (hagree : ∀ i, i ≤ t + 2 → sig1 i = sig2 i) :
    sectorRun cfg env sig1 out0 t = sectorRun cfg env sig2 out0 t := by
  unfold sectorRun
  by_cases hsmall : env.nstr ≤ t + 1
  · rw [runAux_sig_congr cfg env sig1 sig2 env.nstr 0 initState out0 (by omega)
      (fun i hi _ => hagree i (by omega))]
  · have hA : runAux cfg env sig1 initState out0 0 (t + 1) =
        runAux cfg env sig2 initState out0 0 (t + 1) :=
      runAux_sig_congr cfg env sig1 sig2 (t + 1) 0 initState out0 (by omega)
        (fun i hi hi2 => hagree i (by omega))
    have hd1 : env.nstr = (t + 2) + (env.nstr - (t + 2)) := by omega
    rw [hd1, runAux_add cfg env sig1, runAux_add cfg env sig2,
      runAux_out_lo cfg env sig1 _ _ _ _ t (by omega),
      runAux_out_lo cfg env sig2 _ _ _ _ t (by omega)]
    have hd2 : t + 2 = (t + 1) + 1 := by omega
    rw [hd2, runAux_add cfg env sig1 1, runAux_add cfg env sig2 1, runAux_one, runAux_one,
      hA]
    have h0 : 0 + (t + 1) = t + 1 := by omega
    rw [h0]
    have he : effMult cfg env sig1 (t + 1) = effMult cfg env sig2 (t + 1) :=
      effMult_sig_congr cfg env sig1 sig2 (t + 1) (hagree (t + 1) (by omega))
    have hmain := stripStep_out_prev_sig_congr cfg env sig1 sig2 (t + 1)
      (runAux cfg env sig2 initState out0 0 (t + 1)).1
      (runAux cfg env sig2 initState out0 0 (t + 1)).2 he (by omega)
    simpa using hmain

/-- Counterexample to C6 as stated (the merged output at strip t depends
only on the input signals at strips t-2 .. t+2): on seven in-band
strips, removing the signal of strip 0 - far outside the window
2 .. 6 of strip 4 - changes the output at strip 4 from a three-strip
cluster amplitude 6 to 0, because it shifts the phase of the cluster
tiling. -/
theorem c6_counterexample :
    (∀ i, 2 ≤ i → i ≤ 6 → sigRun7 i = sigRun7b i) ∧
      sectorRun cfgTT (stdEnv 7) sigRun7 (fun _ => none) 4 = some 6 ∧
      sectorRun cfgTT (stdEnv 7) sigRun7b (fun _ => none) 4 = some 0 := by
  refine ⟨?_, ?_, ?_⟩
  · intro i h1 h2; interval_cases i <;> rfl
  · norm_num [sectorRun, runAux, stripStep, effMult, effMultNext, effMultNN,
      multNextRaw, multNNAdj, doCorr, sigD, Option.some_ne_none, mergeCorr, upd, initState,
      cfgTT, stdEnv, sigRun7, listSig]
  · norm_num [sectorRun, runAux, stripStep, effMult, effMultNext, effMultNN,
      multNextRaw, multNNAdj, doCorr, sigD, Option.some_ne_none, mergeCorr, upd, initState,
      cfgTT, stdEnv, sigRun7b, listSig]

/-- Claim C6 (amended): `Filter` is deterministic and single-pass with a
two-strip lookahead: the merged output written at strip t of a sector
depends only on the input signals of that same sector at strips 0 .. t+2
(later strips of the sector, and all other sectors and rings, may change
arbitrarily without affecting it). -/
theorem c6_single_pass_lookahead (cfg : Config) (env : Nat → Char → Nat → SectorEnv)
    (sigs1 sigs2 : Nat → Char → Nat → Nat → Option ℚ)
    (etaIn : Nat → Char → Nat → Nat → ℚ) (clearMult : Nat → Char → Nat → Nat → Option ℚ)
    (clearEta : Nat → Char → Nat → Nat → ℚ) (d : Nat) (r : Char) (s t : Nat)
    (hagree : ∀ i, i ≤ t + 2 → sigs1 d r s i = sigs2 d r s i) :
    (Filter cfg env sigs1 etaIn clearMult clearEta).2.1 d r s t =
      (Filter cfg env sigs2 etaIn clearMult clearEta).2.1 d r s t :=
  sectorRun_locality cfg (env d r s) (sigs1 d r s) (sigs2 d r s) (clearMult d r s) t hagree

/-- Witness for the amended C6: two signal assignments that agree on
strips 0 .. 3 but differ at strip 4 give the same output at strip 1. -/
theorem c6_witness :
    (∀ i, i ≤ 1 + 2 → sigsA 1 'I' 0 i = sigsB 1 'I' 0 i) ∧
      (Filter cfgTT envAll5 sigsA etaInN clearMult0 clearEta0).2.1 1 'I' 0 1 =
        (Filter cfgTT envAll5 sigsB etaInN clearMult0 clearEta0).2.1 1 'I' 0 1 := by
  have hag : ∀ i, i ≤ 1 + 2 → sigsA 1 'I' 0 i = sigsB 1 'I' 0 i := by
    intro i h
    interval_cases i <;> rfl
  exact ⟨hag, c6_single_pass_lookahead cfgTT envAll5 sigsA sigsB etaInN clearMult0 clearEta0
    1 'I' 0 1 hag⟩

/- ------------------------------------------------------------------ -/
/- Claim C9                                                            -/
/- ------------------------------------------------------------------ -/

theorem updQ_same (f : Nat → ℚ) (i : Nat) (v : ℚ) : updQ f i v i = v := by
  simp [updQ]

theorem etaRunAux_ne_zero (s : Nat) (etaIn : Nat → ℚ) (hs : s ≠ 0) :
    ∀ (n t0 : Nat) (e : Nat → ℚ), etaRunAux s etaIn e t0 n = e := by
  intro n
  induction n with
  | zero => intro t0 e; rfl
  | succ n ih =>
      intro t0 e
      show etaRunAux s etaIn (if s = 0 then updQ e t0 (etaIn t0) else e) (t0 + 1) n = e
      rw [if_neg hs]
      exact ih (t0 + 1) e

theorem etaRunAux_lo (etaIn : Nat → ℚ) :
    ∀ (n t0 : Nat) (e : Nat → ℚ) (p : Nat), p < t0 →
      etaRunAux 0 etaIn e t0 n p = e p := by
  intro n
  induction n with
  | zero => intro t0 e p _; rfl
  | succ n ih =>
      intro t0 e p hp
      show etaRunAux 0 etaIn (if 0 = 0 then updQ e t0 (etaIn t0) else e) (t0 + 1) n p = e p
      rw [if_pos rfl, ih (t0 + 1) _ p (by omega)]
      simp [updQ]
      omega

theorem etaRunAux_mem (etaIn : Nat → ℚ) :
    ∀ (n t0 : Nat) (e : Nat → ℚ) (p : Nat), t0 ≤ p → p < t0 + n →
      etaRunAux 0 etaIn e t0 n p = etaIn p := by
  intro n
  induction n with
  | zero => intro t0 e p h1 h2; omega
  | succ n ih =>
      intro t0 e p h1 h2
      show etaRunAux 0 etaIn (if 0 = 0 then updQ e t0 (etaIn t0) else e) (t0 + 1) n p = etaIn p
      rw [if_pos rfl]
      by_cases hp : p = t0
      · subst hp
        rw [etaRunAux_lo etaIn n (p + 1) _ p (by omega)]
        exact updQ_same e p (etaIn p)
      · exact ih (t0 + 1) _ p (by omega) (by omega)

/-- The sector output at a strip inside the sector does not depend on
what Clear left in the output object: the loop always writes it. -/
theorem sectorRun_out0_indep (cfg : Config) (env : SectorEnv) (sig : Nat → Option ℚ)
    (t : Nat) (ht : t < env.nstr) (out1 out2 : Nat → Option ℚ) :
    sectorRun cfg env sig out1 t = sectorRun cfg env sig out2 t := by
  unfold sectorRun
  have hd1 : env.nstr = (t + 1) + (env.nstr - (t + 1)) := by omega
  rw [hd1, runAux_add cfg env sig (env.nstr - (t + 1)) (t + 1) 0 initState out1,
    runAux_add cfg env sig (env.nstr - (t + 1)) (t + 1) 0 initState out2]
  have hsnd : (runAux cfg env sig initState out1 0 (t + 1)).2 t =
      (runAux cfg env sig initState out2 0 (t + 1)).2 t := by
    rw [runAux_add cfg env sig 1 t 0 initState out1, runAux_add cfg env sig 1 t 0 initState out2,
      runAux_one, runAux_one,
      runAux_fst_out_indep cfg env sig t 0 initState out1 out2]
    simp only [Nat.zero_add]
    exact stripStep_out_self_indep cfg env sig t _ _ _
  rw [runAux_fst_out_indep cfg env sig (t + 1) 0 initState out1 out2]
  exact runAux_out_pointwise cfg env sig _ _ _ _ _ t hsnd

/-- Claim C9: `Filter` copies the input pseudorapidity to the output
only for sector 0 of a ring: for every sector s >= 1 the output eta
retains the value Clear gave it, while for sector 0 every strip's eta is
written from the input; the multiplicity of every strip inside the
sector is written by the pass regardless of what Clear left there. -/
theorem c9_eta_only_sector_zero (cfg : Config) (env : Nat → Char → Nat → SectorEnv)
    (sigs : Nat → Char → Nat → Nat → Option ℚ) (etaIn : Nat → Char → Nat → Nat → ℚ)
    (clearMult : Nat → Char → Nat → Nat → Option ℚ) (clearEta : Nat → Char → Nat → Nat → ℚ)
    (d : Nat) (r : Char) (s t : Nat) :
    (1 ≤ s → (Filter cfg env sigs etaIn clearMult clearEta).2.2 d r s t = clearEta d r s t) ∧
      (t < (env d r 0).nstr →
        (Filter cfg env sigs etaIn clearMult clearEta).2.2 d r 0 t = etaIn d r 0 t) ∧
      (t < (env d r s).nstr → ∀ clearMult' : Nat → Char → Nat → Nat → Option ℚ,
        (Filter cfg env sigs etaIn clearMult clearEta).2.1 d r s t =
          (Filter cfg env sigs etaIn clearMult' clearEta).2.1 d r s t) := by
  refine ⟨?_, ?_, ?_⟩
  · intro hs
    show etaRunAux s (etaIn d r s) (clearEta d r s) 0 (env d r s).nstr t = clearEta d r s t
    rw [etaRunAux_ne_zero s (etaIn d r s) (by omega)]
  · intro ht
    show etaRunAux 0 (etaIn d r 0) (clearEta d r 0) 0 (env d r 0).nstr t = etaIn d r 0 t
    exact etaRunAux_mem (etaIn d r 0) (env d r 0).nstr 0 _ t (by omega) (by omega)
  · intro ht clearMult'
    exact sectorRun_out0_indep cfg (env d r s) (sigs d r s) t ht
      (clearMult d r s) (clearMult' d r s)

/-- Witness for C9: with 5-strip sectors, sector 1 keeps the cleared
eta 0 at strip 2, sector 0 receives the input eta 9 at strip 2, and the
multiplicity output at sector 1, strip 2 is the same whether the object
was cleared to invalid or to 3. -/
theorem c9_witness :
    ((Filter cfgTT envAll5 sigsA etaInN clearMult0 clearEta0).2.2 1 'I' 1 2 =
        clearEta0 1 'I' 1 2) ∧
      ((Filter cfgTT envAll5 sigsA etaInN clearMult0 clearEta0).2.2 1 'I' 0 2 =
        etaInN 1 'I' 0 2) ∧
      (Filter cfgTT envAll5 sigsA etaInN clearMult0 clearEta0).2.1 1 'I' 1 2 =
        (Filter cfgTT envAll5 sigsA etaInN clearMult1 clearEta0).2.1 1 'I' 1 2 :=
  ⟨(c9_eta_only_sector_zero cfgTT envAll5 sigsA etaInN clearMult0 clearEta0 1 'I' 1 2).1
      (by omega),
    (c9_eta_only_sector_zero cfgTT envAll5 sigsA etaInN clearMult0 clearEta0 1 'I' 1 2).2.1
      (by norm_num [envAll5, stdEnv]),
    (c9_eta_only_sector_zero cfgTT envAll5 sigsA etaInN clearMult0 clearEta0 1 'I' 1 2).2.2
      (by norm_num [envAll5, stdEnv]) clearMult1⟩

end AliFMDSharingFilter
